import Mathlib

/-!
# Memory bandwidth benchmark (`sw/bandwidth/bandwidth.c`)

A shallow embedding of the sweep/measurement engine of the benchmark.

* `uint64_t` / `uint32_t` values are natural numbers; every machine operation that can
  overflow is written with an explicit reduction modulo `2 ^ 64` (or `2 ^ 32`).
* `BUFSIZE` is a compile-time constant of the C file (`512 KiB` with `__CHESHIRE__`,
  `128 MiB` otherwise); it is a parameter of the model.
* Addresses are natural numbers below `2 ^ 64`; a pointer computed by the code
  (`buf + 256*pos`) is the sum modulo `2 ^ 64`.
* The cycle counter and `random()` are external: an `Env` fixes the value returned by the
  `n`-th read of each.
* The six `asm_*` kernels are external too: an `Env` also fixes what each invocation does
  to the contents of the buffer.
* Every observable action (fence, counter read, random draw, kernel invocation, `printf`)
  is appended to the `trace` of the state, together with a marker at the entry of each
  of the three test functions that records the arguments of the call.
* The three `while` loops of `main` take fuel; a loop that runs out of fuel yields
  `Run.timeout` with the state reached so far.
-/

namespace Bandwidth

/-! ## Compile-time parameters -/

/-- The `TEST_ITERS` constant: `1000UL`. -/
def TEST_ITERS : Nat := 1000

/-- The `MAX_NUM_CHUNKS` constant: `16384UL`. -/
def MAX_NUM_CHUNKS : Nat := 16384

/-- The `BUFSIZE` of the `__CHESHIRE__` build: `512*1024UL`. -/
def BUFSIZE_CHESHIRE : Nat := 512 * 1024

/-- The `BUFSIZE` of the generic build: `128*1024*1024UL`. -/
def BUFSIZE_HOST : Nat := 128 * 1024 * 1024

/-! ## Machine arithmetic -/

/-- Addition of two `uint64_t`. -/
def add64 (a b : Nat) : Nat := (a + b) % 2 ^ 64

/-- Subtraction of two `uint64_t` (wraps around below zero). -/
def sub64 (a b : Nat) : Nat := (a % 2 ^ 64 + (2 ^ 64 - b % 2 ^ 64)) % 2 ^ 64

/-- Multiplication of two `uint64_t`. -/
def mul64 (a b : Nat) : Nat := (a * b) % 2 ^ 64

/-- Left shift of a `uint64_t`. -/
def shl64 (a k : Nat) : Nat := (a * 2 ^ k) % 2 ^ 64

/-- Right shift of a `uint64_t`. -/
def shr64 (a k : Nat) : Nat := a / 2 ^ k

/-- Multiplication of two `uint32_t`. -/
def mul32 (a b : Nat) : Nat := (a * b) % 2 ^ 32

/-- Left shift of a `uint32_t`. -/
def shl32 (a k : Nat) : Nat := (a * 2 ^ k) % 2 ^ 32

/-! ## Observable actions -/

/-- First field of a data row. -/
inductive TestName
  | stream
  | stride
  | random
  deriving DecidableEq, Repr

/-- The lines `printf` writes, with the values substituted into the format string. -/
inductive Output
  /-- The line `test_name,test_iterations,number_of_accesses,stride,read_cycles,write_cycles`. -/
  | header
  /-- A line `<name>,%lu,%lu,%lu,%lu,%lu`. -/
  | row (name : TestName) (iters accesses stride rd wr : Nat)
  /-- The line `Error: Too many chunks to track (%lu but maximum is %lu)`. -/
  | tooManyChunks (num_chunks max : Nat)
  /-- The line `Error: Too many chunks for the buffer (...)`. -/
  | tooManyForBuffer (num_chunks bytes bufsize : Nat)
  /-- The line `Done!`. -/
  | done
  deriving DecidableEq, Repr

/-- The two global chunk address tables. -/
inductive ChunkTable
  | rd_chunks
  | wr_chunks
  deriving DecidableEq, Repr

/-- One entry of the trace. -/
inductive Event
  /-- Entry of `test_stream_rw(buf, size)`. -/
  | call_test_stream_rw (buf size : Nat)
  /-- Entry of `test_stride_rw(buf, num_accesses, stride)`. -/
  | call_test_stride_rw (buf num_accesses stride : Nat)
  /-- Entry of `test_random_rw(buf, size)`. -/
  | call_test_random_rw (buf size : Nat)
  | fence
  /-- One evaluation of `read_cycle()` that returned `v`. -/
  | read_cycle (v : Nat)
  /-- One call of `random()` that returned `v`. -/
  | random (v : Nat)
  | asm_stream_write (buf size iters : Nat)
  | asm_stream_read (buf size iters : Nat)
  | asm_stride_write (buf num_accesses stride iters : Nat)
  | asm_stride_read (buf num_accesses stride iters : Nat)
  | asm_random_write (table : ChunkTable) (size iters : Nat)
  | asm_random_read (table : ChunkTable) (size iters : Nat)
  | printf (o : Output)
  deriving DecidableEq, Repr

/-- The external collaborators: `cycle n` is what the `n`-th evaluation of `read_cycle()`
returns, `random n` what the `n`-th call of `random()` returns (counting from 0), and
`asm n b` the contents of `buffer` after the `n`-th kernel invocation when they were `b`
before it (the six `asm_*` routines are external; they may change the buffer and nothing
else). -/
structure Env where
  cycle : Nat → Nat
  random : Nat → Nat
  asm : Nat → (Nat → Nat) → (Nat → Nat)

/-- Program state: the trace so far, how often the counter was read, `random()` called
and a kernel invoked, the two global tables `rd_chunks` and `wr_chunks` (index to stored
address) and the 64-bit words of `buffer` (word index to value). -/
structure State where
  trace : List Event
  cycles_read : Nat
  randoms_drawn : Nat
  kernels_run : Nat
  rd_chunks : Nat → Nat
  wr_chunks : Nat → Nat
  buffer : Nat → Nat

/-- State at program start: the globals are zero-initialised. -/
def State.init : State :=
  { trace := [], cycles_read := 0, randoms_drawn := 0, kernels_run := 0,
    rd_chunks := fun _ => 0, wr_chunks := fun _ => 0, buffer := fun _ => 0 }

/-- Append one event to the trace. -/
def State.emit (s : State) (e : Event) : State :=
  { s with trace := s.trace ++ [e] }

/-- The `fence()` macro. -/
def fence (s : State) : State := s.emit Event.fence

/-- The `read_cycle()` macro: a 64-bit value from the environment. -/
def read_cycle (env : Env) (s : State) : Nat × State :=
  (env.cycle s.cycles_read % 2 ^ 64,
   { s with trace := s.trace ++ [Event.read_cycle (env.cycle s.cycles_read % 2 ^ 64)],
            cycles_read := s.cycles_read + 1 })

/-- A call of `random()`, its result converted to `uint64_t`. -/
def random (env : Env) (s : State) : Nat × State :=
  (env.random s.randoms_drawn % 2 ^ 64,
   { s with trace := s.trace ++ [Event.random (env.random s.randoms_drawn % 2 ^ 64)],
            randoms_drawn := s.randoms_drawn + 1 })

/-- A call of `printf`. -/
def printf (o : Output) (s : State) : State := s.emit (Event.printf o)

/-- A call of one of the six external kernels, `e` being the event that records it. -/
def kernel (env : Env) (e : Event) (s : State) : State :=
  { s with trace := s.trace ++ [e], buffer := env.asm s.kernels_run s.buffer,
           kernels_run := s.kernels_run + 1 }

/-! ## The three tests -/

/-- The function `test_stream_rw(buf, size)`. -/
def test_stream_rw (env : Env) (buf size : Nat) (s : State) : State :=
  let s := s.emit (Event.call_test_stream_rw buf size)
  let s := fence s
  let wr_pre := (read_cycle env s).1
  let s := (read_cycle env s).2
  let s := kernel env (Event.asm_stream_write buf size TEST_ITERS) s
  let wr_post := (read_cycle env s).1
  let s := (read_cycle env s).2
  let s := fence s
  let rd_pre := (read_cycle env s).1
  let s := (read_cycle env s).2
  let s := kernel env (Event.asm_stream_read buf size TEST_ITERS) s
  let rd_post := (read_cycle env s).1
  let s := (read_cycle env s).2
  printf (Output.row TestName.stream TEST_ITERS (size / 8) 8
    (sub64 rd_post rd_pre / TEST_ITERS) (sub64 wr_post wr_pre / TEST_ITERS)) s

/-- The function `test_stride_rw(buf, num_accesses, stride)`; `sizeof(uint64_t)` is 8. -/
def test_stride_rw (env : Env) (buf num_accesses stride : Nat) (s : State) : State :=
  let s := s.emit (Event.call_test_stride_rw buf num_accesses stride)
  let s := fence s
  let wr_pre := (read_cycle env s).1
  let s := (read_cycle env s).2
  let s := kernel env (Event.asm_stride_write buf (num_accesses / 8) (mul64 stride 8) TEST_ITERS) s
  let wr_post := (read_cycle env s).1
  let s := (read_cycle env s).2
  let s := fence s
  let rd_pre := (read_cycle env s).1
  let s := (read_cycle env s).2
  let s := kernel env (Event.asm_stride_read buf (num_accesses / 8) (mul64 stride 8) TEST_ITERS) s
  let rd_post := (read_cycle env s).1
  let s := (read_cycle env s).2
  printf (Output.row TestName.stride TEST_ITERS (num_accesses / 8) (mul64 stride 8)
    (sub64 rd_post rd_pre / TEST_ITERS) (sub64 wr_post wr_pre / TEST_ITERS)) s

/-- The `for (i = 0; i < num_chunks; i++)` loop of `test_random_rw`, started at `i`;
`num_chunks - i` units of fuel complete it. The value stored in a table entry is the
64-bit pointer `buf + 256*pos`: the sum is taken modulo `2 ^ 64`. -/
def fillChunks (env : Env) (buf num_chunks : Nat) : Nat → Nat → State → State
  | 0, _, s => s
  | fuel + 1, i, s =>
    if i < num_chunks then
      let rd_pos := (random env s).1 % num_chunks
      let s := (random env s).2
      let wr_pos := (random env s).1 % num_chunks
      let s := (random env s).2
      let s := { s with rd_chunks := Function.update s.rd_chunks i (add64 buf (mul64 256 rd_pos)) }
      let s := { s with wr_chunks := Function.update s.wr_chunks i (add64 buf (mul64 256 wr_pos)) }
      fillChunks env buf num_chunks fuel (add64 i 1) s
    else s

/-- The function `test_random_rw(buf, size)`. -/
def test_random_rw (env : Env) (BUFSIZE buf size : Nat) (s : State) : State :=
  let s := s.emit (Event.call_test_random_rw buf size)
  let num_chunks := size / 256
  if num_chunks > MAX_NUM_CHUNKS then
    printf (Output.tooManyChunks num_chunks MAX_NUM_CHUNKS) s
  else if mul64 num_chunks 256 > BUFSIZE then
    printf (Output.tooManyForBuffer num_chunks (mul64 num_chunks 256) BUFSIZE) s
  else
    let s := fillChunks env buf num_chunks num_chunks 0 s
    let s := fence s
    let wr_pre := (read_cycle env s).1
    let s := (read_cycle env s).2
    let s := kernel env (Event.asm_random_write ChunkTable.wr_chunks num_chunks TEST_ITERS) s
    let wr_post := (read_cycle env s).1
    let s := (read_cycle env s).2
    let s := fence s
    let rd_pre := (read_cycle env s).1
    let s := (read_cycle env s).2
    let s := kernel env (Event.asm_random_read ChunkTable.rd_chunks num_chunks TEST_ITERS) s
    let rd_post := (read_cycle env s).1
    let s := (read_cycle env s).2
    printf (Output.row TestName.random TEST_ITERS (size / 8) 8
      (sub64 rd_post rd_pre / TEST_ITERS) (sub64 wr_post wr_pre / TEST_ITERS)) s

/-! ## The sweeps of `main` -/

/-- Result of running a loop (or `main`) with bounded fuel. -/
inductive Run
  /-- The code ran to its end. -/
  | finished (s : State)
  /-- The fuel ran out in state `s`. -/
  | timeout (s : State)

/-- The state a run ended in. -/
def Run.state : Run → State
  | Run.finished s => s
  | Run.timeout s => s

/-- Whether the run reached its end. -/
def Run.isFinished : Run → Bool
  | Run.finished _ => true
  | Run.timeout _ => false

/-- Sequencing: continue with `f` when the first part ran to its end. -/
def Run.andThen (r : Run) (f : State → Run) : Run :=
  match r with
  | Run.finished s => f s
  | Run.timeout s => Run.timeout s

/-- Body of the first `while` loop of `main` (without the update of the loop
variables). -/
def streamBody (env : Env) (buf prev_transfer transfer : Nat) (s : State) : State :=
  if sub64 transfer prev_transfer ≥ 8 * 256 then
    let s := test_stream_rw env buf (add64 prev_transfer (mul64 1 (sub64 transfer prev_transfer / 8))) s
    let s := test_stream_rw env buf (add64 prev_transfer (mul64 2 (sub64 transfer prev_transfer / 8))) s
    let s := test_stream_rw env buf (add64 prev_transfer (mul64 3 (sub64 transfer prev_transfer / 8))) s
    let s := test_stream_rw env buf (add64 prev_transfer (mul64 4 (sub64 transfer prev_transfer / 8))) s
    let s := test_stream_rw env buf (add64 prev_transfer (mul64 5 (sub64 transfer prev_transfer / 8))) s
    let s := test_stream_rw env buf (add64 prev_transfer (mul64 6 (sub64 transfer prev_transfer / 8))) s
    let s := test_stream_rw env buf (add64 prev_transfer (mul64 7 (sub64 transfer prev_transfer / 8))) s
    test_stream_rw env buf transfer s
  else if sub64 transfer prev_transfer ≥ 4 * 256 then
    let s := test_stream_rw env buf (add64 prev_transfer (mul64 1 (sub64 transfer prev_transfer / 4))) s
    let s := test_stream_rw env buf (add64 prev_transfer (mul64 2 (sub64 transfer prev_transfer / 4))) s
    let s := test_stream_rw env buf (add64 prev_transfer (mul64 3 (sub64 transfer prev_transfer / 4))) s
    test_stream_rw env buf transfer s
  else if sub64 transfer prev_transfer ≥ 2 * 256 then
    let s := test_stream_rw env buf (add64 prev_transfer (mul64 1 (sub64 transfer prev_transfer / 2))) s
    test_stream_rw env buf transfer s
  else
    test_stream_rw env buf transfer s

/-- The first `while` loop of `main`: `while (transfer <= BUFSIZE)`. -/
def streamLoop (env : Env) (BUFSIZE buf : Nat) : Nat → Nat → Nat → State → Run
  | 0, _, _, s => Run.timeout s
  | fuel + 1, prev_transfer, transfer, s =>
    if transfer ≤ BUFSIZE then
      streamLoop env BUFSIZE buf fuel transfer (shl64 transfer 1)
        (streamBody env buf prev_transfer transfer s)
    else Run.finished s

/-- Body of the second `while` loop of `main`. -/
def randomBody (env : Env) (BUFSIZE buf prev_transfer transfer : Nat) (s : State) : State :=
  if sub64 transfer prev_transfer ≥ 8 * 256 then
    let s := test_random_rw env BUFSIZE buf (add64 prev_transfer (mul64 1 (sub64 transfer prev_transfer / 8))) s
    let s := test_random_rw env BUFSIZE buf (add64 prev_transfer (mul64 2 (sub64 transfer prev_transfer / 8))) s
    let s := test_random_rw env BUFSIZE buf (add64 prev_transfer (mul64 3 (sub64 transfer prev_transfer / 8))) s
    let s := test_random_rw env BUFSIZE buf (add64 prev_transfer (mul64 4 (sub64 transfer prev_transfer / 8))) s
    let s := test_random_rw env BUFSIZE buf (add64 prev_transfer (mul64 5 (sub64 transfer prev_transfer / 8))) s
    let s := test_random_rw env BUFSIZE buf (add64 prev_transfer (mul64 6 (sub64 transfer prev_transfer / 8))) s
    let s := test_random_rw env BUFSIZE buf (add64 prev_transfer (mul64 7 (sub64 transfer prev_transfer / 8))) s
    test_random_rw env BUFSIZE buf transfer s
  else if sub64 transfer prev_transfer ≥ 4 * 256 then
    let s := test_random_rw env BUFSIZE buf (add64 prev_transfer (mul64 1 (sub64 transfer prev_transfer / 4))) s
    let s := test_random_rw env BUFSIZE buf (add64 prev_transfer (mul64 2 (sub64 transfer prev_transfer / 4))) s
    let s := test_random_rw env BUFSIZE buf (add64 prev_transfer (mul64 3 (sub64 transfer prev_transfer / 4))) s
    test_random_rw env BUFSIZE buf transfer s
  else if sub64 transfer prev_transfer ≥ 2 * 256 then
    let s := test_random_rw env BUFSIZE buf (add64 prev_transfer (mul64 1 (sub64 transfer prev_transfer / 2))) s
    test_random_rw env BUFSIZE buf transfer s
  else
    test_random_rw env BUFSIZE buf transfer s

/-- The second `while` loop of `main`:
`while ((transfer >> 8) <= MAX_NUM_CHUNKS && transfer <= BUFSIZE)`. -/
def randomLoop (env : Env) (BUFSIZE buf : Nat) : Nat → Nat → Nat → State → Run
  | 0, _, _, s => Run.timeout s
  | fuel + 1, prev_transfer, transfer, s =>
    if shr64 transfer 8 ≤ MAX_NUM_CHUNKS ∧ transfer ≤ BUFSIZE then
      randomLoop env BUFSIZE buf fuel transfer (shl64 transfer 1)
        (randomBody env BUFSIZE buf prev_transfer transfer s)
    else Run.finished s

/-- The inner `while` loop of the stride sweep, `stride` being a `uint32_t`:
`while ((transfer >> 3)/stride >= 8 && stride <= 8)`. -/
def strideInner (env : Env) (buf transfer : Nat) : Nat → Nat → State → Run
  | 0, _, s => Run.timeout s
  | fuel + 1, stride, s =>
    if shr64 transfer 3 / stride ≥ 8 ∧ stride ≤ 8 then
      strideInner env buf transfer fuel (shl32 stride 1)
        (test_stride_rw env buf (transfer / mul32 8 stride) stride s)
    else Run.finished s

/-- The third `while` loop of `main`: `while (transfer <= BUFSIZE)`; every run of the
inner loop gets `innerFuel`. -/
def strideLoop (env : Env) (BUFSIZE buf innerFuel : Nat) : Nat → Nat → State → Run
  | 0, _, s => Run.timeout s
  | fuel + 1, transfer, s =>
    if transfer ≤ BUFSIZE then
      (strideInner env buf transfer innerFuel 1 s).andThen
        (fun s => strideLoop env BUFSIZE buf innerFuel fuel (shl64 transfer 1) s)
    else Run.finished s

/-- The loop of `main` that touches the buffer: every 64-bit word of index below
`BUFSIZE/sizeof(uint64_t)` is set to `0xDEADBEEFBEEFDEAD` (the loop in closed form). -/
def touchBuffer (BUFSIZE : Nat) (s : State) : State :=
  { s with buffer := fun i => if i < BUFSIZE / 8 then 0xDEADBEEFBEEFDEAD else s.buffer i }

/-- The function `main` of the generic build (without the UART setup of `__CHESHIRE__`);
`buffer` is the address of the global `buffer`, and each loop gets `fuel`. -/
def main (env : Env) (BUFSIZE buffer fuel : Nat) : Run :=
  let s := touchBuffer BUFSIZE State.init
  let s := printf Output.header s
  let s := fence s
  (streamLoop env BUFSIZE buffer fuel 0 256 s).andThen fun s =>
  let s := fence s
  (randomLoop env BUFSIZE buffer fuel 0 256 s).andThen fun s =>
  let s := fence s
  (strideLoop env BUFSIZE buffer fuel fuel 64 s).andThen fun s =>
  Run.finished (printf Output.done s)

/-! ## Projections of the trace -/

/-- Arguments of one call of a test function. -/
inductive Call
  | stream (buf size : Nat)
  | stride (buf num_accesses stride : Nat)
  | random (buf size : Nat)
  deriving DecidableEq, Repr

/-- The call recorded by an entry marker. -/
def Event.toCall : Event → Option Call
  | Event.call_test_stream_rw buf size => some (Call.stream buf size)
  | Event.call_test_stride_rw buf n stride => some (Call.stride buf n stride)
  | Event.call_test_random_rw buf size => some (Call.random buf size)
  | _ => none

/-- The line written by a `printf` event. -/
def Event.toOutput : Event → Option Output
  | Event.printf o => some o
  | _ => none

/-- The calls of the three test functions, in program order. -/
def calls (t : List Event) : List Call := t.filterMap Event.toCall

/-- The lines written, in program order. -/
def outputs (t : List Event) : List Output := t.filterMap Event.toOutput

/-- The `size` of a call of `test_stream_rw`. -/
def Call.streamSize : Call → Option Nat
  | Call.stream _ size => some size
  | _ => none

/-- The `size` of a call of `test_random_rw`. -/
def Call.randomSize : Call → Option Nat
  | Call.random _ size => some size
  | _ => none

/-- The `(num_accesses, stride)` of a call of `test_stride_rw`. -/
def Call.strideArgs : Call → Option (Nat × Nat)
  | Call.stride _ n st => some (n, st)
  | _ => none

/-- The sizes passed to `test_stream_rw`, in program order. -/
def streamCalls (t : List Event) : List Nat := (calls t).filterMap Call.streamSize

/-- The sizes passed to `test_random_rw`, in program order. -/
def randomCalls (t : List Event) : List Nat := (calls t).filterMap Call.randomSize

/-- The `(num_accesses, stride)` pairs passed to `test_stride_rw`, in program order. -/
def strideCalls (t : List Event) : List (Nat × Nat) := (calls t).filterMap Call.strideArgs

/-- Whether a line is a data row. -/
def Output.isRow : Output → Bool
  | Output.row _ _ _ _ _ _ => true
  | _ => false

/-- Whether a line is one of the two error messages of `test_random_rw`. -/
def Output.isError : Output → Bool
  | Output.tooManyChunks _ _ => true
  | Output.tooManyForBuffer _ _ _ => true
  | _ => false

/-! ## The control skeleton of the sweeps

The loop conditions and the arguments of the calls depend neither on the counter nor on
`random()`; the following functions compute them without the state. They are connected
to the loops above by the lemmas `streamLoop_calls`, `randomLoop_calls`,
`strideInner_calls`, `strideLoop_calls` and `main_calls`. -/

/-- The sizes one iteration of the first (or second) loop passes to its test function. -/
def stepSizes (prev_transfer transfer : Nat) : List Nat :=
  if sub64 transfer prev_transfer ≥ 8 * 256 then
    [add64 prev_transfer (mul64 1 (sub64 transfer prev_transfer / 8)),
     add64 prev_transfer (mul64 2 (sub64 transfer prev_transfer / 8)),
     add64 prev_transfer (mul64 3 (sub64 transfer prev_transfer / 8)),
     add64 prev_transfer (mul64 4 (sub64 transfer prev_transfer / 8)),
     add64 prev_transfer (mul64 5 (sub64 transfer prev_transfer / 8)),
     add64 prev_transfer (mul64 6 (sub64 transfer prev_transfer / 8)),
     add64 prev_transfer (mul64 7 (sub64 transfer prev_transfer / 8)),
     transfer]
  else if sub64 transfer prev_transfer ≥ 4 * 256 then
    [add64 prev_transfer (mul64 1 (sub64 transfer prev_transfer / 4)),
     add64 prev_transfer (mul64 2 (sub64 transfer prev_transfer / 4)),
     add64 prev_transfer (mul64 3 (sub64 transfer prev_transfer / 4)),
     transfer]
  else if sub64 transfer prev_transfer ≥ 2 * 256 then
    [add64 prev_transfer (mul64 1 (sub64 transfer prev_transfer / 2)), transfer]
  else
    [transfer]

/-- Sizes passed by a loop `while (cond transfer) { <step>; prev_transfer = transfer;
transfer <<= 1; }` within `fuel` evaluations of its condition, and whether it exits. -/
def sweep (cond : Nat → Bool) : Nat → Nat → Nat → List Nat × Bool
  | 0, _, _ => ([], false)
  | fuel + 1, prev_transfer, transfer =>
    if cond transfer then
      (stepSizes prev_transfer transfer ++ (sweep cond fuel transfer (shl64 transfer 1)).1,
       (sweep cond fuel transfer (shl64 transfer 1)).2)
    else ([], true)

/-- Condition of the first and of the third loop of `main`. -/
def streamCond (BUFSIZE : Nat) (transfer : Nat) : Bool := decide (transfer ≤ BUFSIZE)

/-- Condition of the second loop of `main`. -/
def randomCond (BUFSIZE : Nat) (transfer : Nat) : Bool :=
  decide (shr64 transfer 8 ≤ MAX_NUM_CHUNKS ∧ transfer ≤ BUFSIZE)

/-- The `(num_accesses, stride)` pairs the inner stride loop passes from `stride` on, and
whether it exits within the fuel. -/
def strideInnerArgs (transfer : Nat) : Nat → Nat → List (Nat × Nat) × Bool
  | 0, _ => ([], false)
  | fuel + 1, stride =>
    if shr64 transfer 3 / stride ≥ 8 ∧ stride ≤ 8 then
      ((transfer / mul32 8 stride, stride) :: (strideInnerArgs transfer fuel (shl32 stride 1)).1,
       (strideInnerArgs transfer fuel (shl32 stride 1)).2)
    else ([], true)

/-- The `(num_accesses, stride)` pairs the third loop passes from `transfer` on, and
whether it exits within the fuel. -/
def strideSweep (BUFSIZE innerFuel : Nat) : Nat → Nat → List (Nat × Nat) × Bool
  | 0, _ => ([], false)
  | fuel + 1, transfer =>
    if transfer ≤ BUFSIZE then
      if (strideInnerArgs transfer innerFuel 1).2 then
        ((strideInnerArgs transfer innerFuel 1).1
            ++ (strideSweep BUFSIZE innerFuel fuel (shl64 transfer 1)).1,
         (strideSweep BUFSIZE innerFuel fuel (shl64 transfer 1)).2)
      else ((strideInnerArgs transfer innerFuel 1).1, false)
    else ([], true)

/-- The calls of `main`, in program order, and whether `main` returns. -/
def mainCalls (BUFSIZE buffer fuel : Nat) : List Call × Bool :=
  let a := sweep (streamCond BUFSIZE) fuel 0 256
  let b := sweep (randomCond BUFSIZE) fuel 0 256
  let c := strideSweep BUFSIZE fuel fuel 64
  if a.2 then
    if b.2 then
      (a.1.map (Call.stream buffer) ++ b.1.map (Call.random buffer)
         ++ c.1.map (fun p => Call.stride buffer p.1 p.2), c.2)
    else (a.1.map (Call.stream buffer) ++ b.1.map (Call.random buffer), false)
  else (a.1.map (Call.stream buffer), false)

/-! ## The text of the lines -/

/-- The first field of a data row as text. -/
def TestName.render : TestName → String
  | TestName.stream => "stream"
  | TestName.stride => "stride"
  | TestName.random => "random"

/-- The `%lx` conversion: lower-case hexadecimal digits. -/
def hexDigits (n : Nat) : String := String.mk (Nat.toDigits 16 n)

/-- The text of a line: the format string of its `printf` with the `%lu` and `%lx`
conversions filled in. -/
def Output.render : Output → String
  | Output.header =>
    "test_name,test_iterations,number_of_accesses,stride,read_cycles,write_cycles\r\n"
  | Output.row name iters accesses stride rd wr =>
    name.render ++ "," ++ toString iters ++ "," ++ toString accesses ++ "," ++ toString stride
      ++ "," ++ toString rd ++ "," ++ toString wr ++ "\r\n"
  | Output.tooManyChunks num_chunks max =>
    "Error: Too many chunks to track (" ++ toString num_chunks ++ " but maximum is "
      ++ toString max ++ ")\r\n"
  | Output.tooManyForBuffer num_chunks bytes bufsize =>
    "Error: Too many chunks for the buffer (" ++ toString num_chunks
      ++ " chunks of 256 bytes each = 0x" ++ hexDigits bytes ++ " bytes, buffer size = 0x"
      ++ hexDigits bufsize ++ " bytes)!\r\n"
  | Output.done => "Done!\r\n"

/-! ## The sweeps as the specification words them -/

/-- Number of sizes of one doubling step as the specification words it: 8 when the step
is at least `8 * 256` bytes, 4 when at least `4 * 256`, 2 when at least `2 * 256`,
otherwise 1. -/
def specSubdivisions (step : Nat) : Nat :=
  if step ≥ 8 * 256 then 8 else if step ≥ 4 * 256 then 4 else if step ≥ 2 * 256 then 2 else 1

/-- Sizes of the doubling step `prev_transfer → transfer` as the specification words
them: `prev_transfer + k * (step / n)` for `k = 1, ..., n`, where
`step = transfer - prev_transfer` and `n = specSubdivisions step`. -/
def specStepSizes (prev_transfer transfer : Nat) : List Nat :=
  (List.range (specSubdivisions (transfer - prev_transfer))).map fun k =>
    prev_transfer
      + (k + 1) * ((transfer - prev_transfer) / specSubdivisions (transfer - prev_transfer))

/-! ## Loop invariants -/

/-- The values `(prev_transfer, transfer)` reached by doubling from `(0, 256)` without
overflow of the 64-bit variable: `(0, 256)`, `(256, 512)`, `(512, 1024)`, ... -/
def DoublingStep (prev_transfer transfer : Nat) : Prop :=
  (prev_transfer = 0 ∧ transfer = 256) ∨
    ∃ j, prev_transfer = 256 * 2 ^ j ∧ transfer = 512 * 2 ^ j ∧ transfer < 2 ^ 64

/-- The lines written between `s` and `s1` all satisfy `P`. -/
def OutExt (P : Output → Prop) (s s1 : State) : Prop :=
  ∃ l, outputs s1.trace = outputs s.trace ++ l ∧ ∀ o ∈ l, P o

/-- The environment in which the counter and `random()` always return 0 and the kernels
leave the buffer as it is. -/
def env0 : Env := { cycle := fun _ => 0, random := fun _ => 0, asm := fun _ b => b }

/-- The values of `transfer` in the third loop: `64 * 2 ^ k`, or 0 after a wrap-around. -/
def StrideStep (transfer : Nat) : Prop :=
  transfer = 0 ∨ ∃ k, transfer = 64 * 2 ^ k ∧ transfer < 2 ^ 64

/-- The strides tried for one `transfer` as the specification words it: 1, 2, 4, 8 in
that order while `(transfer >> 3) / stride ≥ 8`. -/
def specStrides (transfer : Nat) : List Nat :=
  [1, 2, 4, 8].takeWhile (fun stride => decide (transfer / 2 ^ 3 / stride ≥ 8))

/-- The `(num_accesses, stride)` pairs of one `transfer` as the specification words
them: `num_accesses = transfer / (8 * stride)`. -/
def specStrideArgs (transfer : Nat) : List (Nat × Nat) :=
  (specStrides transfer).map (fun stride => (transfer / (8 * stride), stride))

/-- The results of `count` successive calls of `random()`, the first of them being call
number `first` of the run, each converted to `uint64_t`. -/
def draws (env : Env) (first count : Nat) : List Nat :=
  (List.range count).map fun m => env.random (first + m) % 2 ^ 64

/-- Number of raw results `raw < range` of `random()` that the expression
`random() % num_chunks` of `test_random_rw` (the result converted to `uint64_t`) maps to
the position `pos`. -/
def positionCount (range num_chunks pos : Nat) : Nat :=
  Nat.count (fun raw => raw % 2 ^ 64 % num_chunks = pos) range

/-- The value of counter reading number `k` of the run: what `read_cycle()` returns. -/
def reading (env : Env) (k : Nat) : Nat := env.cycle k % 2 ^ 64

/-- The cycles-per-iteration figure of a data row, `(post - pre) / TEST_ITERS` in
`uint64_t` arithmetic, for the readings `pre` before and `post` after the kernel. -/
def figure (pre post : Nat) : Nat := sub64 post pre / TEST_ITERS

/-- The result recorded by a `random()` event. -/
def Event.toDraw : Event → Option Nat
  | Event.random v => some v
  | _ => none

/-- The results of the calls of `random()`, in program order. -/
def randomDraws (t : List Event) : List Nat := t.filterMap Event.toDraw

/-- An environment that differs from `env0` in the counter, in `random()` and in the
kernels. -/
def env1 : Env :=
  { cycle := fun n => 1000 * n * n + 7, random := fun n => 2654435761 * n + 12345,
    asm := fun n b i => b i + n }

/-! ## Basic facts about the trace -/

theorem emit_trace (s : State) (e : Event) : (s.emit e).trace = s.trace ++ [e] := rfl

theorem test_stream_rw_calls (env : Env) (buf size : Nat) (s : State) :
    calls (test_stream_rw env buf size s).trace = calls s.trace ++ [Call.stream buf size] := by
  simp [test_stream_rw, calls, printf, fence, read_cycle, kernel, State.emit, Event.toCall]

theorem test_stride_rw_calls (env : Env) (buf n stride : Nat) (s : State) :
    calls (test_stride_rw env buf n stride s).trace
      = calls s.trace ++ [Call.stride buf n stride] := by
  simp [test_stride_rw, calls, printf, fence, read_cycle, kernel, State.emit, Event.toCall]

theorem fillChunks_calls (env : Env) (buf n : Nat) (fuel i : Nat) (s : State) :
    calls (fillChunks env buf n fuel i s).trace = calls s.trace := by
  induction fuel generalizing i s with
  | zero => rfl
  | succ fuel ih =>
    simp only [fillChunks]
    split
    · rw [ih]
      simp [calls, random, Event.toCall]
    · rfl

theorem test_random_rw_calls (env : Env) (BUFSIZE buf size : Nat) (s : State) :
    calls (test_random_rw env BUFSIZE buf size s).trace
      = calls s.trace ++ [Call.random buf size] := by
  unfold test_random_rw
  simp only []
  split
  · simp [calls, printf, State.emit, Event.toCall]
  · split
    · simp [calls, printf, State.emit, Event.toCall]
    · have h := fillChunks_calls env buf (size / 256) (size / 256) 0
        (s.emit (Event.call_test_random_rw buf size))
      simp only [calls, State.emit] at h
      simp [calls, printf, fence, read_cycle, kernel, State.emit, Event.toCall, h]

/-! ## The calls of the loops -/

theorem streamBody_calls (env : Env) (buf p t : Nat) (s : State) :
    calls (streamBody env buf p t s).trace
      = calls s.trace ++ (stepSizes p t).map (Call.stream buf) := by
  unfold streamBody stepSizes
  split_ifs <;> simp [test_stream_rw_calls]

theorem randomBody_calls (env : Env) (B buf p t : Nat) (s : State) :
    calls (randomBody env B buf p t s).trace
      = calls s.trace ++ (stepSizes p t).map (Call.random buf) := by
  unfold randomBody stepSizes
  split_ifs <;> simp [test_random_rw_calls]

theorem streamLoop_calls (env : Env) (B buf : Nat) (fuel p t : Nat) (s : State) :
    calls (streamLoop env B buf fuel p t s).state.trace
        = calls s.trace ++ (sweep (streamCond B) fuel p t).1.map (Call.stream buf)
      ∧ (streamLoop env B buf fuel p t s).isFinished = (sweep (streamCond B) fuel p t).2 := by
  induction fuel generalizing p t s with
  | zero => simp [streamLoop, sweep, Run.state, Run.isFinished]
  | succ fuel ih =>
    simp only [streamLoop, sweep]
    by_cases h : t ≤ B
    · have hc : streamCond B t = true := by simp [streamCond, h]
      simp only [h, hc, if_true]
      obtain ⟨h1, h2⟩ := ih t (shl64 t 1) (streamBody env buf p t s)
      rw [h1, h2, streamBody_calls]
      simp
    · have hc : streamCond B t = false := by simp [streamCond, h]
      simp [h, hc, Run.state, Run.isFinished]

theorem randomLoop_calls (env : Env) (B buf : Nat) (fuel p t : Nat) (s : State) :
    calls (randomLoop env B buf fuel p t s).state.trace
        = calls s.trace ++ (sweep (randomCond B) fuel p t).1.map (Call.random buf)
      ∧ (randomLoop env B buf fuel p t s).isFinished = (sweep (randomCond B) fuel p t).2 := by
  induction fuel generalizing p t s with
  | zero => simp [randomLoop, sweep, Run.state, Run.isFinished]
  | succ fuel ih =>
    simp only [randomLoop, sweep]
    by_cases h : shr64 t 8 ≤ MAX_NUM_CHUNKS ∧ t ≤ B
    · have hc : randomCond B t = true := by simp [randomCond, h]
      simp only [h, hc, if_true, and_self]
      obtain ⟨h1, h2⟩ := ih t (shl64 t 1) (randomBody env B buf p t s)
      rw [h1, h2, randomBody_calls]
      simp
    · have hc : randomCond B t = false := by simpa [randomCond] using h
      simp [h, hc, Run.state, Run.isFinished]

theorem strideInner_calls (env : Env) (buf t : Nat) (fuel st : Nat) (s : State) :
    calls (strideInner env buf t fuel st s).state.trace
        = calls s.trace ++ (strideInnerArgs t fuel st).1.map (fun p => Call.stride buf p.1 p.2)
      ∧ (strideInner env buf t fuel st s).isFinished = (strideInnerArgs t fuel st).2 := by
  induction fuel generalizing st s with
  | zero => simp [strideInner, strideInnerArgs, Run.state, Run.isFinished]
  | succ fuel ih =>
    simp only [strideInner, strideInnerArgs]
    by_cases h : shr64 t 3 / st ≥ 8 ∧ st ≤ 8
    · simp only [h, if_true, and_self]
      obtain ⟨h1, h2⟩ := ih (shl32 st 1) (test_stride_rw env buf (t / mul32 8 st) st s)
      rw [h1, h2, test_stride_rw_calls]
      simp
    · simp [h, Run.state, Run.isFinished]

theorem strideLoop_calls (env : Env) (B buf inner : Nat) (fuel t : Nat) (s : State) :
    calls (strideLoop env B buf inner fuel t s).state.trace
        = calls s.trace ++ (strideSweep B inner fuel t).1.map (fun p => Call.stride buf p.1 p.2)
      ∧ (strideLoop env B buf inner fuel t s).isFinished = (strideSweep B inner fuel t).2 := by
  induction fuel generalizing t s with
  | zero => simp [strideLoop, strideSweep, Run.state, Run.isFinished]
  | succ fuel ih =>
    simp only [strideLoop, strideSweep]
    by_cases h : t ≤ B
    · simp only [h, if_true]
      obtain ⟨h1, h2⟩ := strideInner_calls env buf t inner 1 s
      cases hr : strideInner env buf t inner 1 s with
      | finished s1 =>
        rw [hr] at h1 h2
        simp only [Run.state, Run.isFinished] at h1 h2
        obtain ⟨h3, h4⟩ := ih (shl64 t 1) s1
        simp only [Run.andThen, ← h2, if_true]
        rw [h3, h4, h1]
        simp
      | timeout s1 =>
        rw [hr] at h1 h2
        simp only [Run.state, Run.isFinished] at h1 h2
        simp only [Run.andThen, ← h2]
        simp [Run.state, Run.isFinished, h1]
    · simp [h, Run.state, Run.isFinished]

theorem main_calls (env : Env) (B buf fuel : Nat) :
    calls (main env B buf fuel).state.trace = (mainCalls B buf fuel).1
      ∧ (main env B buf fuel).isFinished = (mainCalls B buf fuel).2 := by
  unfold main mainCalls
  simp only []
  generalize hs0 : fence (printf Output.header (touchBuffer B State.init)) = s0
  have hc0 : calls s0.trace = [] := by
    rw [← hs0]; simp [calls, fence, printf, State.emit, touchBuffer, State.init, Event.toCall]
  have hf : ∀ s : State, calls (fence s).trace = calls s.trace := by
    intro s; simp [calls, fence, State.emit, Event.toCall]
  have hd : ∀ s : State, calls (printf Output.done s).trace = calls s.trace := by
    intro s; simp [calls, printf, State.emit, Event.toCall]
  obtain ⟨a1, a2⟩ := streamLoop_calls env B buf fuel 0 256 s0
  cases ha : streamLoop env B buf fuel 0 256 s0 with
  | timeout s1 =>
    rw [ha] at a1 a2
    simp only [Run.state, Run.isFinished] at a1 a2
    simp [Run.andThen, Run.state, Run.isFinished, ← a2, a1, hc0]
  | finished s1 =>
    rw [ha] at a1 a2
    simp only [Run.state, Run.isFinished] at a1 a2
    simp only [Run.andThen, ← a2, if_true]
    obtain ⟨b1, b2⟩ := randomLoop_calls env B buf fuel 0 256 (fence s1)
    cases hb : randomLoop env B buf fuel 0 256 (fence s1) with
    | timeout s2 =>
      rw [hb] at b1 b2
      simp only [Run.state, Run.isFinished] at b1 b2
      simp [Run.state, Run.isFinished, ← b2, a1, b1, hc0, hf]
    | finished s2 =>
      rw [hb] at b1 b2
      simp only [Run.state, Run.isFinished] at b1 b2
      simp only [← b2, if_true]
      obtain ⟨c1, c2⟩ := strideLoop_calls env B buf fuel fuel 64 (fence s2)
      cases hc : strideLoop env B buf fuel fuel 64 (fence s2) with
      | timeout s3 =>
        rw [hc] at c1 c2
        simp only [Run.state, Run.isFinished] at c1 c2
        simp [Run.state, Run.isFinished, ← c2, a1, b1, c1, hc0, hf]
      | finished s3 =>
        rw [hc] at c1 c2
        simp only [Run.state, Run.isFinished] at c1 c2
        simp [Run.state, Run.isFinished, ← c2, a1, b1, c1, hc0, hf, hd]

/-! ## Arithmetic of the doubling steps -/

theorem doubling_cases {p t : Nat} (h : DoublingStep p t) :
    (p = 0 ∧ t = 256) ∨ (p = 256 ∧ t = 512) ∨ (p = 512 ∧ t = 1024) ∨ (p = 1024 ∧ t = 2048)
      ∨ ∃ y, 1 ≤ y ∧ p = 2048 * y ∧ t = 4096 * y ∧ 4096 * y < 2 ^ 64 := by
  rcases h with h | ⟨j, hp, ht, hlt⟩
  · exact Or.inl h
  · match j, hp, ht with
    | 0, hp, ht => right; left; simpa using ⟨hp, ht⟩
    | 1, hp, ht => right; right; left; simpa using ⟨hp, ht⟩
    | 2, hp, ht => right; right; right; left; simpa using ⟨hp, ht⟩
    | k + 3, hp, ht =>
      right; right; right; right
      refine ⟨2 ^ k, Nat.one_le_two_pow, ?_, ?_, ?_⟩
      · rw [hp, pow_add]; ring
      · rw [ht, pow_add]; ring
      · rw [ht, pow_add] at hlt; omega

theorem stepSizes_big (y : Nat) (hy : 1 ≤ y) (hlt : 4096 * y < 2 ^ 64) :
    stepSizes (2048 * y) (4096 * y)
      = [2304 * y, 2560 * y, 2816 * y, 3072 * y, 3328 * y, 3584 * y, 3840 * y, 4096 * y] := by
  have h1 : sub64 (4096 * y) (2048 * y) = 2048 * y := by unfold sub64; omega
  have h2 : 2048 * y ≥ 8 * 256 := by omega
  simp only [stepSizes, h1, if_pos h2, add64, mul64]
  simp only [List.cons.injEq, and_true]
  refine ⟨?_, ?_, ?_, ?_, ?_, ?_, ?_⟩ <;> omega

theorem stepSizes_small :
    stepSizes 0 256 = [256] ∧ stepSizes 256 512 = [512] ∧ stepSizes 512 1024 = [768, 1024]
      ∧ stepSizes 1024 2048 = [1280, 1536, 1792, 2048] := by
  refine ⟨?_, ?_, ?_, ?_⟩ <;> decide

theorem stepSizes_bounds {p t : Nat} (h : DoublingStep p t) :
    ∀ x ∈ stepSizes p t, x % 256 = 0 ∧ p < x ∧ x ≤ t := by
  obtain ⟨s1, s2, s3, s4⟩ := stepSizes_small
  rcases doubling_cases h with ⟨rfl, rfl⟩ | ⟨rfl, rfl⟩ | ⟨rfl, rfl⟩ | ⟨rfl, rfl⟩ | ⟨y, hy, rfl, rfl, hlt⟩
  · rw [s1]; simp
  · rw [s2]; simp
  · rw [s3]; simp
  · rw [s4]; simp
  · rw [stepSizes_big y hy hlt]
    intro x hx
    simp only [List.mem_cons, List.mem_singleton, List.not_mem_nil, or_false] at hx
    omega

theorem doubling_next {p t : Nat} (h : DoublingStep p t) (ht : t < 2 ^ 63) :
    DoublingStep t (shl64 t 1) := by
  have hs : shl64 t 1 = 2 * t := by unfold shl64; omega
  rw [hs]
  rcases h with ⟨_, rfl⟩ | ⟨j, _, rfl, _⟩
  · exact Or.inr ⟨0, by norm_num, by norm_num, by norm_num⟩
  · refine Or.inr ⟨j + 1, ?_, ?_, by omega⟩
    · rw [pow_succ]; ring
    · rw [pow_succ]; ring

theorem doubling_init : DoublingStep 0 256 := Or.inl ⟨rfl, rfl⟩

theorem doubling_mod {p t : Nat} (h : DoublingStep p t) : t % 256 = 0 ∧ 256 ≤ t := by
  rcases h with ⟨_, rfl⟩ | ⟨j, _, rfl, _⟩
  · decide
  · have : 1 ≤ 2 ^ j := Nat.one_le_two_pow
    omega

theorem randomCond_eq (B : Nat) :
    randomCond B = streamCond (min B (MAX_NUM_CHUNKS * 256 + 255)) := by
  funext t
  simp only [randomCond, streamCond, shr64, MAX_NUM_CHUNKS, decide_eq_decide]
  omega

theorem sweep_bounds (M : Nat) (hM : M < 2 ^ 63) (fuel : Nat) :
    ∀ p t, DoublingStep p t →
      ∀ x ∈ (sweep (streamCond M) fuel p t).1, x % 256 = 0 ∧ 256 ≤ x ∧ x ≤ M := by
  induction fuel with
  | zero => intro p t _ x hx; simp [sweep] at hx
  | succ fuel ih =>
    intro p t hd x hx
    simp only [sweep, streamCond] at hx
    by_cases h : t ≤ M
    · simp only [h, decide_True, if_true, List.mem_append] at hx
      rcases hx with hx | hx
      · have := stepSizes_bounds hd x hx
        omega
      · exact ih t (shl64 t 1) (doubling_next hd (by omega)) x hx
    · simp [h] at hx

theorem sweep_done (M : Nat) (hM : M < 2 ^ 63) (fuel : Nat) :
    ∀ p t, M < t * 2 ^ fuel → (sweep (streamCond M) (fuel + 1) p t).2 = true := by
  induction fuel with
  | zero =>
    intro p t h
    have : ¬ t ≤ M := by omega
    simp [sweep, streamCond, this]
  | succ fuel ih =>
    intro p t h
    rw [sweep]
    by_cases ht : t ≤ M
    · have hs : shl64 t 1 = 2 * t := by unfold shl64; omega
      simp only [streamCond, ht, decide_True, if_true]
      apply ih
      rw [hs]
      rw [pow_succ] at h
      nlinarith
    · simp [streamCond, ht]

theorem sweep_done_of_le (M : Nat) (hM : M < 2 ^ 63) (fuel : Nat) (hf : 64 ≤ fuel) (p : Nat) :
    (sweep (streamCond M) fuel p 256).2 = true := by
  obtain ⟨k, rfl⟩ : ∃ k, fuel = k + 1 := ⟨fuel - 1, by omega⟩
  apply sweep_done M hM
  have h1 : (2:Nat) ^ 63 ≤ 2 ^ k := Nat.pow_le_pow_right (by norm_num) (by omega)
  omega

theorem sweep_congr (M1 M2 : Nat) (hM : M1 < 2 ^ 63)
    (h : ∀ t, t % 256 = 0 → (t ≤ M1 ↔ t ≤ M2)) (fuel : Nat) :
    ∀ p t, DoublingStep p t → sweep (streamCond M1) fuel p t = sweep (streamCond M2) fuel p t := by
  induction fuel with
  | zero => intro p t _; rfl
  | succ fuel ih =>
    intro p t hd
    have ht := h t (doubling_mod hd).1
    simp only [sweep, streamCond]
    by_cases h1 : t ≤ M1
    · have h2 : t ≤ M2 := ht.1 h1
      have := ih t (shl64 t 1) (doubling_next hd (by omega))
      simp only [streamCond] at this
      simp only [h1, h2, decide_True, if_true, this]
    · have h2 : ¬ t ≤ M2 := fun h2 => h1 (ht.2 h2)
      simp [h1, h2]

theorem sweep_initial_segment (M1 M2 : Nat) (h : M1 ≤ M2) (fuel : Nat) :
    ∀ p t, (sweep (streamCond M1) fuel p t).1 <+: (sweep (streamCond M2) fuel p t).1 := by
  induction fuel with
  | zero => intro p t; simp [sweep]
  | succ fuel ih =>
    intro p t
    simp only [sweep, streamCond]
    by_cases h1 : t ≤ M1
    · have h2 : t ≤ M2 := by omega
      have := ih t (shl64 t 1)
      simp only [streamCond] at this
      simp only [h1, h2, decide_True, if_true]
      exact (List.prefix_append_right_inj _).2 this
    · simp [h1]

theorem random_sweep_eq (B fuel : Nat) :
    sweep (randomCond B) fuel 0 256
      = sweep (streamCond (min B (MAX_NUM_CHUNKS * 256))) fuel 0 256 := by
  rw [randomCond_eq]
  apply sweep_congr
  · simp only [MAX_NUM_CHUNKS]; omega
  · intro t ht; simp only [MAX_NUM_CHUNKS]; omega
  · exact Or.inl ⟨rfl, rfl⟩

/-! ## The lines written -/

theorem OutExt.refl (P : Output → Prop) (s : State) : OutExt P s s :=
  ⟨[], by simp, by simp⟩

theorem OutExt.trans {P : Output → Prop} {s1 s2 s3 : State}
    (h1 : OutExt P s1 s2) (h2 : OutExt P s2 s3) : OutExt P s1 s3 := by
  obtain ⟨l1, e1, p1⟩ := h1
  obtain ⟨l2, e2, p2⟩ := h2
  refine ⟨l1 ++ l2, by rw [e2, e1, List.append_assoc], ?_⟩
  intro o ho
  rcases List.mem_append.1 ho with h | h
  · exact p1 o h
  · exact p2 o h

theorem test_stream_rw_outputs (env : Env) (buf size : Nat) (s : State) :
    outputs (test_stream_rw env buf size s).trace
      = outputs s.trace ++ [Output.row TestName.stream TEST_ITERS (size / 8) 8
          (sub64 (env.cycle (s.cycles_read + 3) % 2 ^ 64) (env.cycle (s.cycles_read + 2) % 2 ^ 64)
            / TEST_ITERS)
          (sub64 (env.cycle (s.cycles_read + 1) % 2 ^ 64) (env.cycle s.cycles_read % 2 ^ 64)
            / TEST_ITERS)] := by
  simp [test_stream_rw, outputs, printf, fence, read_cycle, kernel, State.emit, Event.toOutput]

theorem test_stride_rw_outputs (env : Env) (buf n stride : Nat) (s : State) :
    outputs (test_stride_rw env buf n stride s).trace
      = outputs s.trace ++ [Output.row TestName.stride TEST_ITERS (n / 8) (mul64 stride 8)
          (sub64 (env.cycle (s.cycles_read + 3) % 2 ^ 64) (env.cycle (s.cycles_read + 2) % 2 ^ 64)
            / TEST_ITERS)
          (sub64 (env.cycle (s.cycles_read + 1) % 2 ^ 64) (env.cycle s.cycles_read % 2 ^ 64)
            / TEST_ITERS)] := by
  simp [test_stride_rw, outputs, printf, fence, read_cycle, kernel, State.emit, Event.toOutput]

theorem fillChunks_outputs (env : Env) (buf n : Nat) (fuel i : Nat) (s : State) :
    outputs (fillChunks env buf n fuel i s).trace = outputs s.trace
      ∧ (fillChunks env buf n fuel i s).cycles_read = s.cycles_read := by
  induction fuel generalizing i s with
  | zero => exact ⟨rfl, rfl⟩
  | succ fuel ih =>
    simp only [fillChunks]
    split
    · obtain ⟨h1, h2⟩ := ih (add64 i 1)
        { (random env (random env s).2).2 with
          rd_chunks := Function.update (random env (random env s).2).2.rd_chunks i
            (add64 buf (mul64 256 ((random env s).1 % n))),
          wr_chunks := Function.update (random env (random env s).2).2.wr_chunks i
            (add64 buf (mul64 256 ((random env (random env s).2).1 % n))) }
      rw [h1, h2]
      simp [outputs, random, Event.toOutput]
    · exact ⟨rfl, rfl⟩

theorem test_random_rw_outputs (env : Env) (B buf size : Nat) (s : State) :
    outputs (test_random_rw env B buf size s).trace
      = outputs s.trace ++
        [if size / 256 > MAX_NUM_CHUNKS then Output.tooManyChunks (size / 256) MAX_NUM_CHUNKS
         else if mul64 (size / 256) 256 > B then
           Output.tooManyForBuffer (size / 256) (mul64 (size / 256) 256) B
         else Output.row TestName.random TEST_ITERS (size / 8) 8
          (sub64 (env.cycle (s.cycles_read + 3) % 2 ^ 64) (env.cycle (s.cycles_read + 2) % 2 ^ 64)
            / TEST_ITERS)
          (sub64 (env.cycle (s.cycles_read + 1) % 2 ^ 64) (env.cycle s.cycles_read % 2 ^ 64)
            / TEST_ITERS)] := by
  unfold test_random_rw
  simp only []
  split
  · simp [outputs, printf, State.emit, Event.toOutput]
  · split
    · simp [outputs, printf, State.emit, Event.toOutput]
    · obtain ⟨h1, h2⟩ := fillChunks_outputs env buf (size / 256) (size / 256) 0
        (s.emit (Event.call_test_random_rw buf size))
      simp only [outputs, State.emit] at h1 h2
      simp [outputs, printf, fence, read_cycle, kernel, State.emit, Event.toOutput, h1, h2]

theorem test_stream_rw_ext (env : Env) (buf size : Nat) (s : State) :
    OutExt (fun o => o.isRow = true) s (test_stream_rw env buf size s) :=
  ⟨_, test_stream_rw_outputs env buf size s, by simp [Output.isRow]⟩

theorem test_stride_rw_ext (env : Env) (buf n stride : Nat) (s : State) :
    OutExt (fun o => o.isRow = true) s (test_stride_rw env buf n stride s) :=
  ⟨_, test_stride_rw_outputs env buf n stride s, by simp [Output.isRow]⟩

theorem test_random_rw_ext (env : Env) (B buf size : Nat) (s : State)
    (h1 : size / 256 ≤ MAX_NUM_CHUNKS) (h2 : size ≤ B) :
    OutExt (fun o => o.isRow = true) s (test_random_rw env B buf size s) := by
  refine ⟨_, test_random_rw_outputs env B buf size s, ?_⟩
  have h3 : ¬ size / 256 > MAX_NUM_CHUNKS := by omega
  have h4 : ¬ mul64 (size / 256) 256 > B := by
    unfold mul64; simp only [MAX_NUM_CHUNKS] at h1; omega
  simp [h3, h4, Output.isRow]

theorem streamBody_eq (env : Env) (buf p t : Nat) (s : State) :
    streamBody env buf p t s
      = (stepSizes p t).foldl (fun s x => test_stream_rw env buf x s) s := by
  unfold streamBody stepSizes
  split_ifs <;> rfl

theorem randomBody_eq (env : Env) (B buf p t : Nat) (s : State) :
    randomBody env B buf p t s
      = (stepSizes p t).foldl (fun s x => test_random_rw env B buf x s) s := by
  unfold randomBody stepSizes
  split_ifs <;> rfl

theorem foldl_ext {P : Output → Prop} (f : State → Nat → State) (l : List Nat)
    (h : ∀ x ∈ l, ∀ s, OutExt P s (f s x)) (s : State) : OutExt P s (l.foldl f s) := by
  induction l generalizing s with
  | nil => exact OutExt.refl _ _
  | cons x l ih =>
    simp only [List.foldl_cons]
    exact OutExt.trans (h x (by simp) s) (ih (fun y hy => h y (by simp [hy])) _)

theorem streamBody_ext (env : Env) (buf p t : Nat) (s : State) :
    OutExt (fun o => o.isRow = true) s (streamBody env buf p t s) := by
  rw [streamBody_eq]
  exact foldl_ext _ _ (fun x _ s => test_stream_rw_ext env buf x s) s

theorem streamLoop_ext (env : Env) (B buf : Nat) (fuel p t : Nat) (s : State) :
    OutExt (fun o => o.isRow = true) s (streamLoop env B buf fuel p t s).state := by
  induction fuel generalizing p t s with
  | zero => exact OutExt.refl _ _
  | succ fuel ih =>
    simp only [streamLoop]
    split
    · exact OutExt.trans (streamBody_ext env buf p t s) (ih _ _ _)
    · exact OutExt.refl _ _

theorem strideInner_ext (env : Env) (buf t : Nat) (fuel st : Nat) (s : State) :
    OutExt (fun o => o.isRow = true) s (strideInner env buf t fuel st s).state := by
  induction fuel generalizing st s with
  | zero => exact OutExt.refl _ _
  | succ fuel ih =>
    simp only [strideInner]
    split
    · exact OutExt.trans (test_stride_rw_ext env buf _ st s) (ih _ _)
    · exact OutExt.refl _ _

theorem strideLoop_ext (env : Env) (B buf inner : Nat) (fuel t : Nat) (s : State) :
    OutExt (fun o => o.isRow = true) s (strideLoop env B buf inner fuel t s).state := by
  induction fuel generalizing t s with
  | zero => exact OutExt.refl _ _
  | succ fuel ih =>
    simp only [strideLoop]
    split
    · have h := strideInner_ext env buf t inner 1 s
      cases hr : strideInner env buf t inner 1 s with
      | finished s1 =>
        rw [hr] at h
        exact OutExt.trans h (ih _ _)
      | timeout s1 =>
        rw [hr] at h
        exact h
    · exact OutExt.refl _ _

theorem randomBody_ext (env : Env) (B buf p t : Nat) (s : State) (hd : DoublingStep p t)
    (h1 : shr64 t 8 ≤ MAX_NUM_CHUNKS) (h2 : t ≤ B) :
    OutExt (fun o => o.isRow = true) s (randomBody env B buf p t s) := by
  rw [randomBody_eq]
  refine foldl_ext _ _ (fun x hx s => ?_) s
  have := stepSizes_bounds hd x hx
  simp only [shr64, MAX_NUM_CHUNKS] at h1
  apply test_random_rw_ext
  · simp only [MAX_NUM_CHUNKS]; omega
  · omega

theorem randomLoop_ext (env : Env) (B buf : Nat) (fuel p t : Nat) (s : State)
    (hd : DoublingStep p t) :
    OutExt (fun o => o.isRow = true) s (randomLoop env B buf fuel p t s).state := by
  induction fuel generalizing p t s with
  | zero => exact OutExt.refl _ _
  | succ fuel ih =>
    simp only [randomLoop]
    split
    · rename_i h
      have h63 : t < 2 ^ 63 := by
        have := h.1; simp only [shr64, MAX_NUM_CHUNKS] at this; omega
      exact OutExt.trans (randomBody_ext env B buf p t s hd h.1 h.2)
        (ih _ _ _ (doubling_next hd h63))
    · exact OutExt.refl _ _

/-! ## The calls of `main` -/

theorem filterMap_none_fun {α β : Type} (l : List α) :
    l.filterMap (fun _ => (none : Option β)) = [] := by
  induction l with
  | nil => rfl
  | cons a l ih => simp

theorem main_streamCalls (env : Env) (B buf fuel : Nat) :
    streamCalls (main env B buf fuel).state.trace = (sweep (streamCond B) fuel 0 256).1 := by
  unfold streamCalls
  rw [(main_calls env B buf fuel).1]
  unfold mainCalls
  simp only []
  split_ifs <;>
    simp [List.filterMap_append, List.filterMap_map, Function.comp_def, Call.streamSize,
      Option.some_inj, filterMap_none_fun]

theorem main_randomCalls (env : Env) (B buf fuel : Nat) :
    randomCalls (main env B buf fuel).state.trace
      = if (sweep (streamCond B) fuel 0 256).2 then (sweep (randomCond B) fuel 0 256).1
        else [] := by
  unfold randomCalls
  rw [(main_calls env B buf fuel).1]
  unfold mainCalls
  simp only []
  split_ifs <;>
    simp [List.filterMap_append, List.filterMap_map, Function.comp_def, Call.randomSize,
      filterMap_none_fun]

theorem main_strideCalls (env : Env) (B buf fuel : Nat) :
    strideCalls (main env B buf fuel).state.trace
      = if (sweep (streamCond B) fuel 0 256).2 ∧ (sweep (randomCond B) fuel 0 256).2 then
          (strideSweep B fuel fuel 64).1
        else [] := by
  unfold strideCalls
  rw [(main_calls env B buf fuel).1]
  unfold mainCalls
  simp only []
  split_ifs <;>
    simp_all [List.filterMap_append, List.filterMap_map, Function.comp_def, Call.strideArgs,
      filterMap_none_fun]

theorem strideInner_done (t k : Nat) : (strideInnerArgs t (k + 5) 1).2 = true := by
  have e1 : shl32 1 1 = 2 := by decide
  have e2 : shl32 2 1 = 4 := by decide
  have e3 : shl32 4 1 = 8 := by decide
  have e4 : shl32 8 1 = 16 := by decide
  simp only [strideInnerArgs, e1, e2, e3, e4]
  split_ifs <;> simp_all

theorem strideSweep_done (B inner : Nat) (hB : B < 2 ^ 63) (hi : 5 ≤ inner) (fuel : Nat) :
    ∀ t, B < t * 2 ^ fuel → (strideSweep B inner (fuel + 1) t).2 = true := by
  obtain ⟨k, rfl⟩ : ∃ k, inner = k + 5 := ⟨inner - 5, by omega⟩
  induction fuel with
  | zero =>
    intro t h
    have : ¬ t ≤ B := by omega
    simp [strideSweep, this]
  | succ fuel ih =>
    intro t h
    rw [strideSweep]
    by_cases ht : t ≤ B
    · have hs : shl64 t 1 = 2 * t := by unfold shl64; omega
      simp only [ht, if_true, strideInner_done]
      apply ih
      rw [hs]
      rw [pow_succ] at h
      nlinarith
    · simp [ht]

theorem mainCalls_done (B buf fuel : Nat) (hB : B < 2 ^ 63) (hf : 64 ≤ fuel) :
    (mainCalls B buf fuel).2 = true := by
  have h1 := sweep_done_of_le B hB fuel hf 0
  have h2 : (sweep (randomCond B) fuel 0 256).2 = true := by
    rw [random_sweep_eq]
    exact sweep_done_of_le _ (by omega) fuel hf 0
  have h3 : (strideSweep B fuel fuel 64).2 = true := by
    obtain ⟨k, rfl⟩ : ∃ k, fuel = k + 1 := ⟨fuel - 1, by omega⟩
    apply strideSweep_done B _ hB (by omega)
    have : (2:Nat) ^ 63 ≤ 2 ^ k := Nat.pow_le_pow_right (by norm_num) (by omega)
    omega
  simp [mainCalls, h1, h2, h3]

theorem main_finished (env : Env) (B buf fuel : Nat) (hB : B < 2 ^ 63) (hf : 64 ≤ fuel) :
    (main env B buf fuel).isFinished = true := by
  rw [(main_calls env B buf fuel).2]
  exact mainCalls_done B buf fuel hB hf

/-! ## Arithmetic of the stride sweep -/

theorem strideStep_next {t : Nat} (h : StrideStep t) : StrideStep (shl64 t 1) := by
  rcases h with rfl | ⟨k, rfl, hlt⟩
  · exact Or.inl (by decide)
  · have hk : k + 6 < 64 := by
      have : (2:Nat) ^ (k + 6) < 2 ^ 64 := by rw [pow_add]; omega
      exact (Nat.pow_lt_pow_iff_right (by norm_num)).1 this
    by_cases h57 : k = 57
    · subst h57
      exact Or.inl (by decide)
    · have h1 : (2:Nat) ^ (k + 1) ≤ 2 ^ 57 := Nat.pow_le_pow_right (by norm_num) (by omega)
      have h2 : (2:Nat) ^ (k + 1) = 2 ^ k * 2 := pow_succ 2 k
      refine Or.inr ⟨k + 1, ?_, ?_⟩
      · unfold shl64; omega
      · unfold shl64; omega

theorem strideInner_mem (t : Nat) (fuel : Nat) :
    ∀ st, (st = 1 ∨ st = 2 ∨ st = 4 ∨ st = 8 ∨ st = 16) →
      ∀ q ∈ (strideInnerArgs t fuel st).1,
        (q.2 = 1 ∨ q.2 = 2 ∨ q.2 = 4 ∨ q.2 = 8) ∧ q.1 = t / (8 * q.2) ∧ t / 8 / q.2 ≥ 8 := by
  induction fuel with
  | zero => intro st _ q hq; simp [strideInnerArgs] at hq
  | succ fuel ih =>
    intro st hst q hq
    simp only [strideInnerArgs] at hq
    by_cases h : shr64 t 3 / st ≥ 8 ∧ st ≤ 8
    · simp only [h, and_self, if_true, List.mem_cons] at hq
      obtain ⟨h1, h2⟩ := h
      have hm : mul32 8 st = 8 * st := by unfold mul32; omega
      have hs : shl32 st 1 = 2 * st := by unfold shl32; omega
      rcases hq with rfl | hq
      · refine ⟨by simp only []; omega, by simp only [hm], ?_⟩
        simpa [shr64] using h1
      · exact ih (shl32 st 1) (by rw [hs]; omega) q hq
    · simp [h] at hq

theorem stride_arith {t n st : Nat} (h : StrideStep t)
    (hst : st = 1 ∨ st = 2 ∨ st = 4 ∨ st = 8) (hn : n = t / (8 * st)) (hc : t / 8 / st ≥ 8) :
    n % 8 = 0 ∧ n * 8 * st = t := by
  rcases h with rfl | ⟨k, rfl, _⟩
  · rcases hst with rfl | rfl | rfl | rfl <;> simp at hc
  · match k with
    | 0 => rcases hst with rfl | rfl | rfl | rfl <;> omega
    | 1 => rcases hst with rfl | rfl | rfl | rfl <;> omega
    | 2 => rcases hst with rfl | rfl | rfl | rfl <;> omega
    | j + 3 =>
      have e : 64 * 2 ^ (j + 3) = 512 * 2 ^ j := by rw [pow_add]; ring
      rw [e] at hn hc ⊢
      generalize 2 ^ j = y at hn hc ⊢
      rcases hst with rfl | rfl | rfl | rfl <;> omega

theorem strideSweep_mem (B inner : Nat) (fuel : Nat) :
    ∀ t, StrideStep t → ∀ q ∈ (strideSweep B inner fuel t).1,
      ∃ transfer, StrideStep transfer ∧ transfer ≤ B
        ∧ (q.2 = 1 ∨ q.2 = 2 ∨ q.2 = 4 ∨ q.2 = 8)
        ∧ q.1 = transfer / (8 * q.2) ∧ transfer / 8 / q.2 ≥ 8 := by
  induction fuel with
  | zero => intro t _ q hq; simp [strideSweep] at hq
  | succ fuel ih =>
    intro t ht q hq
    simp only [strideSweep] at hq
    by_cases h : t ≤ B
    · simp only [h, if_true] at hq
      have hin : ∀ q ∈ (strideInnerArgs t inner 1).1, ∃ transfer, StrideStep transfer ∧
          transfer ≤ B ∧ (q.2 = 1 ∨ q.2 = 2 ∨ q.2 = 4 ∨ q.2 = 8)
          ∧ q.1 = transfer / (8 * q.2) ∧ transfer / 8 / q.2 ≥ 8 := fun q hq =>
        ⟨t, ht, h, strideInner_mem t inner 1 (Or.inl rfl) q hq⟩
      split at hq
      · rcases List.mem_append.1 hq with hq | hq
        · exact hin q hq
        · exact ih _ (strideStep_next ht) q hq
      · exact hin q hq
    · simp [h] at hq

theorem strideInner_explicit (t k : Nat) :
    strideInnerArgs t (k + 5) 1 = (specStrideArgs t, true) := by
  have e1 : shl32 1 1 = 2 := by decide
  have e2 : shl32 2 1 = 4 := by decide
  have e3 : shl32 4 1 = 8 := by decide
  have e4 : shl32 8 1 = 16 := by decide
  have m1 : mul32 8 1 = 8 := by decide
  have m2 : mul32 8 2 = 16 := by decide
  have m3 : mul32 8 4 = 32 := by decide
  have m4 : mul32 8 8 = 64 := by decide
  simp only [strideInnerArgs, e1, e2, e3, e4, m1, m2, m3, m4, specStrideArgs, specStrides,
    List.takeWhile_cons, List.takeWhile_nil, shr64, decide_eq_true_eq]
  split_ifs <;> simp_all <;> omega

/-! ## The lines written by `main` -/

theorem OutExt.mono {P Q : Output → Prop} {s s1 : State} (h : ∀ o, P o → Q o)
    (e : OutExt P s s1) : OutExt Q s s1 := by
  obtain ⟨l, e1, p1⟩ := e
  exact ⟨l, e1, fun o ho => h o (p1 o ho)⟩

theorem fence_ext (P : Output → Prop) (s : State) : OutExt P s (fence s) :=
  ⟨[], by simp [outputs, fence, State.emit, Event.toOutput], by simp⟩

theorem main_outputs (env : Env) (B buf fuel : Nat) :
    ∃ l, outputs (main env B buf fuel).state.trace = Output.header :: l
      ∧ ∀ o ∈ l, o.isRow = true ∨ o = Output.done := by
  have key : OutExt (fun o => o.isRow = true ∨ o = Output.done)
      (fence (printf Output.header (touchBuffer B State.init))) (main env B buf fuel).state := by
    unfold main
    simp only []
    generalize fence (printf Output.header (touchBuffer B State.init)) = s0
    have a := OutExt.mono (Q := fun o => o.isRow = true ∨ o = Output.done) (fun o h => Or.inl h)
      (streamLoop_ext env B buf fuel 0 256 s0)
    cases ha : streamLoop env B buf fuel 0 256 s0 with
    | timeout s1 => rw [ha] at a; exact a
    | finished s1 =>
      rw [ha] at a
      simp only [Run.andThen, Run.state] at a ⊢
      have b := OutExt.mono (Q := fun o => o.isRow = true ∨ o = Output.done)
        (fun o h => Or.inl h) (randomLoop_ext env B buf fuel 0 256 (fence s1) doubling_init)
      have b' := OutExt.trans a (OutExt.trans (fence_ext _ s1) b)
      cases hb : randomLoop env B buf fuel 0 256 (fence s1) with
      | timeout s2 => rw [hb] at b'; exact b'
      | finished s2 =>
        rw [hb] at b'
        simp only [Run.state] at b' ⊢
        have c := OutExt.mono (Q := fun o => o.isRow = true ∨ o = Output.done)
          (fun o h => Or.inl h) (strideLoop_ext env B buf fuel fuel 64 (fence s2))
        have c' := OutExt.trans b' (OutExt.trans (fence_ext _ s2) c)
        cases hc : strideLoop env B buf fuel fuel 64 (fence s2) with
        | timeout s3 => rw [hc] at c'; exact c'
        | finished s3 =>
          rw [hc] at c'
          simp only [Run.state] at c' ⊢
          refine OutExt.trans c' ⟨[Output.done], ?_, by simp⟩
          simp [outputs, printf, State.emit, Event.toOutput]
  obtain ⟨l, e, p⟩ := key
  refine ⟨l, ?_, p⟩
  rw [e]
  simp [outputs, fence, printf, State.emit, touchBuffer, State.init, Event.toOutput]

theorem streamCalls_of_calls {t t0 : List Event} {buf : Nat} {l : List Nat}
    (h : calls t = calls t0 ++ l.map (Call.stream buf)) :
    streamCalls t = streamCalls t0 ++ l := by
  unfold streamCalls
  rw [h, List.filterMap_append, List.filterMap_map]
  congr 1
  clear h
  induction l with
  | nil => rfl
  | cons a l ih => simpa [Call.streamSize] using ih

theorem randomCalls_of_calls {t t0 : List Event} {buf : Nat} {l : List Nat}
    (h : calls t = calls t0 ++ l.map (Call.random buf)) :
    randomCalls t = randomCalls t0 ++ l := by
  unfold randomCalls
  rw [h, List.filterMap_append, List.filterMap_map]
  congr 1
  clear h
  induction l with
  | nil => rfl
  | cons a l ih => simpa [Call.randomSize] using ih

/-! ## The sizes of the stream sweep -/

/-- C1: for every `BUFSIZE ≥ 256` the program can be built with, every size that the
stream sweep of `main` passes to `test_stream_rw` is a multiple of 256 with
`256 ≤ size ≤ BUFSIZE`, whatever the fuel; with at least 64 units of fuel `main` returns
and the size 256 is among them. `BUFSIZE` is also the size of the array
`volatile char buffer[BUFSIZE]`; the size of an object is below `2 ^ 63`, which is the
hypothesis `BUFSIZE < 2 ^ 63`, met by both configured capacities. -/
theorem stream_sizes_in_bounds (env : Env) (BUFSIZE buffer fuel : Nat)
    (hlo : 256 ≤ BUFSIZE) (hhi : BUFSIZE < 2 ^ 63) :
    (∀ size ∈ streamCalls (main env BUFSIZE buffer fuel).state.trace,
        size % 256 = 0 ∧ 256 ≤ size ∧ size ≤ BUFSIZE)
      ∧ (64 ≤ fuel → (main env BUFSIZE buffer fuel).isFinished = true
          ∧ 256 ∈ streamCalls (main env BUFSIZE buffer fuel).state.trace) := by
  rw [main_streamCalls]
  refine ⟨sweep_bounds BUFSIZE hhi fuel 0 256 doubling_init, fun hf => ?_⟩
  refine ⟨main_finished env BUFSIZE buffer fuel hhi hf, ?_⟩
  obtain ⟨k, rfl⟩ : ∃ k, fuel = k + 1 := ⟨fuel - 1, by omega⟩
  have hc : streamCond BUFSIZE 256 = true := by simp [streamCond, hlo]
  simp [sweep, hc, stepSizes_small.1]

/-- Witness of C1 on the `__CHESHIRE__` profile with 64 units of fuel. -/
theorem stream_sizes_in_bounds_witness :
    256 ≤ BUFSIZE_CHESHIRE ∧ BUFSIZE_CHESHIRE < 2 ^ 63 ∧
      (∀ size ∈ streamCalls (main env0 BUFSIZE_CHESHIRE 0 64).state.trace,
        size % 256 = 0 ∧ 256 ≤ size ∧ size ≤ BUFSIZE_CHESHIRE)
      ∧ (64 ≤ 64 → (main env0 BUFSIZE_CHESHIRE 0 64).isFinished = true
          ∧ 256 ∈ streamCalls (main env0 BUFSIZE_CHESHIRE 0 64).state.trace) :=
  ⟨by decide, by decide,
    stream_sizes_in_bounds env0 BUFSIZE_CHESHIRE 0 64 (by decide) (by decide)⟩

/-! ## The stride sweep and the random sweep stay in bounds -/

/-- C2: every `(num_accesses, stride)` pair that the stride sweep of `main` passes to
`test_stride_rw` comes from a value `transfer = 64 * 2 ^ k` of the loop variable with
`num_accesses = transfer / (8 * stride)`, `num_accesses mod 8 = 0` and
`num_accesses * 8 * stride ≤ transfer ≤ BUFSIZE`, for every `BUFSIZE` and whatever the
fuel; for `64 ≤ BUFSIZE < 2 ^ 63` and at least 64 units of fuel `main` returns and the pair
`(8, 1)` of `transfer = 64` is among them. -/
theorem stride_args_in_bounds (env : Env) (BUFSIZE buffer fuel : Nat) :
    (∀ q ∈ strideCalls (main env BUFSIZE buffer fuel).state.trace,
      ∃ transfer, (∃ k, transfer = 64 * 2 ^ k) ∧ q.1 = transfer / (8 * q.2) ∧ q.1 % 8 = 0
        ∧ q.1 * 8 * q.2 ≤ transfer ∧ transfer ≤ BUFSIZE)
    ∧ (64 ≤ BUFSIZE → BUFSIZE < 2 ^ 63 → 64 ≤ fuel →
        (main env BUFSIZE buffer fuel).isFinished = true
          ∧ (8, 1) ∈ strideCalls (main env BUFSIZE buffer fuel).state.trace) := by
  rw [main_strideCalls]
  constructor
  · intro q hq
    split at hq
    · obtain ⟨t, ht, hle, hst, hn, hc⟩ :=
        strideSweep_mem BUFSIZE fuel fuel 64 (Or.inr ⟨0, by norm_num, by norm_num⟩) q hq
      have ha := stride_arith ht hst hn hc
      refine ⟨t, ?_, hn, ha.1, by omega, hle⟩
      rcases ht with rfl | ⟨k, hk, _⟩
      · rcases hst with h | h | h | h <;> rw [h] at hc <;> simp at hc
      · exact ⟨k, hk⟩
    · simp at hq
  · intro hlo hhi hf
    refine ⟨main_finished env BUFSIZE buffer fuel hhi hf, ?_⟩
    have h1 := sweep_done_of_le BUFSIZE hhi fuel hf 0
    have h2 : (sweep (randomCond BUFSIZE) fuel 0 256).2 = true := by
      rw [random_sweep_eq]
      exact sweep_done_of_le _ (by omega) fuel hf 0
    obtain ⟨k, rfl⟩ : ∃ k, fuel = k + 5 := ⟨fuel - 5, by omega⟩
    rw [if_pos ⟨h1, h2⟩]
    have e : specStrideArgs 64 = [(8, 1)] := by decide
    rw [show k + 5 = (k + 4) + 1 from rfl, strideSweep, if_pos hlo,
      show k + 4 + 1 = k + 5 from rfl, strideInner_explicit, e]
    simp

/-- Witness of C2 on the `__CHESHIRE__` profile with 64 units of fuel. -/
theorem stride_args_in_bounds_witness :
    64 ≤ BUFSIZE_CHESHIRE ∧ BUFSIZE_CHESHIRE < 2 ^ 63 ∧ 64 ≤ 64 ∧
      (main env0 BUFSIZE_CHESHIRE 0 64).isFinished = true ∧
      (8, 1) ∈ strideCalls (main env0 BUFSIZE_CHESHIRE 0 64).state.trace :=
  ⟨by decide, by decide, by decide,
    (stride_args_in_bounds env0 BUFSIZE_CHESHIRE 0 64).2 (by decide) (by decide) (by decide)⟩

/-- C3: every size that the random sweep of `main` passes to `test_random_rw` has a
chunk count `num_chunks = size / 256` with `0 < num_chunks ≤ MAX_NUM_CHUNKS` and
`num_chunks * 256 ≤ BUFSIZE`, and no line that `main` writes is one of the two error
messages of `test_random_rw`: for every `BUFSIZE`, whatever the fuel; for
`256 ≤ BUFSIZE < 2 ^ 63` and at least 64 units of fuel `main` returns and the size 256 is
among them. -/
theorem random_sweep_no_error (env : Env) (BUFSIZE buffer fuel : Nat) :
    (∀ size ∈ randomCalls (main env BUFSIZE buffer fuel).state.trace,
      0 < size / 256 ∧ size / 256 ≤ MAX_NUM_CHUNKS ∧ size / 256 * 256 ≤ BUFSIZE)
    ∧ (∀ o ∈ outputs (main env BUFSIZE buffer fuel).state.trace, o.isError = false)
    ∧ (256 ≤ BUFSIZE → BUFSIZE < 2 ^ 63 → 64 ≤ fuel →
        (main env BUFSIZE buffer fuel).isFinished = true
          ∧ 256 ∈ randomCalls (main env BUFSIZE buffer fuel).state.trace) := by
  refine ⟨?_, ?_, ?_⟩
  · rw [main_randomCalls]
    intro size hs
    split at hs
    · rw [random_sweep_eq] at hs
      have := sweep_bounds (min BUFSIZE (MAX_NUM_CHUNKS * 256))
        (by simp only [MAX_NUM_CHUNKS]; omega) fuel 0 256 doubling_init size hs
      simp only [MAX_NUM_CHUNKS] at this ⊢
      omega
    · simp at hs
  · obtain ⟨l, e, p⟩ := main_outputs env BUFSIZE buffer fuel
    rw [e]
    intro o ho
    rcases List.mem_cons.1 ho with rfl | ho
    · rfl
    · rcases p o ho with h | rfl
      · cases o <;> simp_all [Output.isRow, Output.isError]
      · rfl
  · intro hlo hhi hf
    refine ⟨main_finished env BUFSIZE buffer fuel hhi hf, ?_⟩
    rw [main_randomCalls, if_pos (sweep_done_of_le BUFSIZE hhi fuel hf 0)]
    obtain ⟨k, rfl⟩ : ∃ k, fuel = k + 1 := ⟨fuel - 1, by omega⟩
    have hc : randomCond BUFSIZE 256 = true := by
      simp [randomCond, shr64, MAX_NUM_CHUNKS, hlo]
    simp [sweep, hc, stepSizes_small.1]

/-- Witness of C3 on the `__CHESHIRE__` profile with 64 units of fuel. -/
theorem random_sweep_no_error_witness :
    256 ≤ BUFSIZE_CHESHIRE ∧ BUFSIZE_CHESHIRE < 2 ^ 63 ∧ 64 ≤ 64 ∧
      (main env0 BUFSIZE_CHESHIRE 0 64).isFinished = true ∧
      256 ∈ randomCalls (main env0 BUFSIZE_CHESHIRE 0 64).state.trace :=
  ⟨by decide, by decide, by decide,
    (random_sweep_no_error env0 BUFSIZE_CHESHIRE 0 64).2.2 (by decide) (by decide) (by decide)⟩

/-! ## The chunk tables and the checks of `test_random_rw` -/

theorem fillChunks_tables (env : Env) (buf n : Nat) (hn : n ≤ 2 ^ 56) (fuel : Nat) :
    ∀ i s, i + fuel = n →
      (fillChunks env buf n fuel i s).randoms_drawn = s.randoms_drawn + 2 * fuel
      ∧ (fillChunks env buf n fuel i s).buffer = s.buffer
      ∧ (∀ j, (fillChunks env buf n fuel i s).rd_chunks j
          = if i ≤ j ∧ j < n then
              (buf + 256 * (env.random (s.randoms_drawn + 2 * (j - i)) % 2 ^ 64 % n)) % 2 ^ 64
            else s.rd_chunks j)
      ∧ (∀ j, (fillChunks env buf n fuel i s).wr_chunks j
          = if i ≤ j ∧ j < n then
              (buf + 256 * (env.random (s.randoms_drawn + 2 * (j - i) + 1) % 2 ^ 64 % n))
                % 2 ^ 64
            else s.wr_chunks j) := by
  induction fuel with
  | zero =>
    intro i s h
    refine ⟨rfl, rfl, fun j => ?_, fun j => ?_⟩ <;>
    · have : ¬ (i ≤ j ∧ j < n) := by omega
      simp [fillChunks, this]
  | succ fuel ih =>
    intro i s h
    have hi : i < n := by omega
    have ha : add64 i 1 = i + 1 := by unfold add64; omega
    have hm : ∀ x, mul64 256 (x % n) = 256 * (x % n) := by
      intro x
      have : x % n < n := Nat.mod_lt _ (by omega)
      unfold mul64; omega
    have hp : ∀ x, add64 buf x = (buf + x) % 2 ^ 64 := fun _ => rfl
    simp only [fillChunks, if_pos hi, ha, hm, hp]
    obtain ⟨h1, h2, h3, h4⟩ := ih (i + 1)
      { (random env (random env s).2).2 with
        rd_chunks := Function.update (random env (random env s).2).2.rd_chunks i
          ((buf + 256 * ((random env s).1 % n)) % 2 ^ 64),
        wr_chunks := Function.update (random env (random env s).2).2.wr_chunks i
          ((buf + 256 * ((random env (random env s).2).1 % n)) % 2 ^ 64) } (by omega)
    refine ⟨?_, ?_, fun j => ?_, fun j => ?_⟩
    · rw [h1]; simp only [random]; omega
    · rw [h2]; rfl
    · rw [h3]
      simp only [random]
      by_cases c1 : i + 1 ≤ j ∧ j < n
      · have c2 : i ≤ j ∧ j < n := by omega
        have e : s.randoms_drawn + 1 + 1 + 2 * (j - (i + 1)) = s.randoms_drawn + 2 * (j - i) := by
          omega
        rw [if_pos c1, if_pos c2, e]
      · rw [if_neg c1]
        by_cases c3 : j = i
        · subst c3
          have c2 : j ≤ j ∧ j < n := by omega
          simp [c2]
        · have c2 : ¬ (i ≤ j ∧ j < n) := by omega
          simp [c2, Function.update, c3]
    · rw [h4]
      simp only [random]
      by_cases c1 : i + 1 ≤ j ∧ j < n
      · have c2 : i ≤ j ∧ j < n := by omega
        have e : s.randoms_drawn + 1 + 1 + 2 * (j - (i + 1)) + 1
            = s.randoms_drawn + 2 * (j - i) + 1 := by omega
        rw [if_pos c1, if_pos c2, e]
      · rw [if_neg c1]
        by_cases c3 : j = i
        · subst c3
          have c2 : j ≤ j ∧ j < n := by omega
          simp [c2]
        · have c2 : ¬ (i ≤ j ∧ j < n) := by omega
          simp [c2, Function.update, c3]

theorem test_random_rw_tables (env : Env) (B buf size : Nat) (s : State)
    (h1 : size / 256 ≤ MAX_NUM_CHUNKS) (h2 : mul64 (size / 256) 256 ≤ B) :
    (∀ j, (test_random_rw env B buf size s).rd_chunks j
        = if j < size / 256 then
            (buf + 256 * (env.random (s.randoms_drawn + 2 * j) % 2 ^ 64 % (size / 256)))
              % 2 ^ 64
          else s.rd_chunks j)
    ∧ (∀ j, (test_random_rw env B buf size s).wr_chunks j
        = if j < size / 256 then
            (buf + 256 * (env.random (s.randoms_drawn + 2 * j + 1) % 2 ^ 64 % (size / 256)))
              % 2 ^ 64
          else s.wr_chunks j)
    ∧ (test_random_rw env B buf size s).randoms_drawn = s.randoms_drawn + 2 * (size / 256) := by
  have h3 : ¬ size / 256 > MAX_NUM_CHUNKS := by omega
  have h4 : ¬ mul64 (size / 256) 256 > B := by omega
  have hn : size / 256 ≤ 2 ^ 56 := by simp only [MAX_NUM_CHUNKS] at h1; omega
  obtain ⟨f1, _, f3, f4⟩ := fillChunks_tables env buf (size / 256) hn (size / 256) 0
    (s.emit (Event.call_test_random_rw buf size)) (by omega)
  simp only [test_random_rw, if_neg h3, if_neg h4, printf, fence, read_cycle, kernel, State.emit]
    at f1 f3 f4 ⊢
  refine ⟨fun j => ?_, fun j => ?_, f1⟩
  · rw [f3]; simp
  · rw [f4]; simp

/-- C4: when `size` passes both checks of `test_random_rw` and the `num_chunks * 256`
bytes at `buf` lie in the 64-bit address space (`buf + num_chunks * 256 ≤ 2 ^ 64`, as for
every pointer to a buffer of `BUFSIZE` bytes), then for every environment (hence every
sequence of `random()` results) and every index `i < num_chunks = size / 256` the 64-bit
addresses left in `rd_chunks[i]` and `wr_chunks[i]` lie in
`[buf, buf + num_chunks * 256)`. -/
theorem chunk_addresses_in_range (env : Env) (BUFSIZE buf size : Nat) (s : State)
    (h1 : size / 256 ≤ MAX_NUM_CHUNKS) (h2 : mul64 (size / 256) 256 ≤ BUFSIZE)
    (h3 : buf + size / 256 * 256 ≤ 2 ^ 64) :
    ∀ i, i < size / 256 →
      (buf ≤ (test_random_rw env BUFSIZE buf size s).rd_chunks i
        ∧ (test_random_rw env BUFSIZE buf size s).rd_chunks i < buf + size / 256 * 256)
      ∧ (buf ≤ (test_random_rw env BUFSIZE buf size s).wr_chunks i
        ∧ (test_random_rw env BUFSIZE buf size s).wr_chunks i < buf + size / 256 * 256) := by
  intro i hi
  obtain ⟨t1, t2, _⟩ := test_random_rw_tables env BUFSIZE buf size s h1 h2
  rw [t1 i, t2 i, if_pos hi, if_pos hi]
  have hpos : 0 < size / 256 := by omega
  have r1 := Nat.mod_lt (env.random (s.randoms_drawn + 2 * i) % 2 ^ 64) hpos
  have r2 := Nat.mod_lt (env.random (s.randoms_drawn + 2 * i + 1) % 2 ^ 64) hpos
  omega

/-- Witness of C4: `size = 512` (two chunks) on the `__CHESHIRE__` profile. -/
theorem chunk_addresses_in_range_witness :
    512 / 256 ≤ MAX_NUM_CHUNKS ∧ mul64 (512 / 256) 256 ≤ BUFSIZE_CHESHIRE ∧
    4096 + 512 / 256 * 256 ≤ 2 ^ 64 ∧
    ∀ i, i < 512 / 256 →
      (4096 ≤ (test_random_rw env0 BUFSIZE_CHESHIRE 4096 512 State.init).rd_chunks i
        ∧ (test_random_rw env0 BUFSIZE_CHESHIRE 4096 512 State.init).rd_chunks i
            < 4096 + 512 / 256 * 256)
      ∧ (4096 ≤ (test_random_rw env0 BUFSIZE_CHESHIRE 4096 512 State.init).wr_chunks i
        ∧ (test_random_rw env0 BUFSIZE_CHESHIRE 4096 512 State.init).wr_chunks i
            < 4096 + 512 / 256 * 256) :=
  ⟨by decide, by decide, by decide,
    chunk_addresses_in_range env0 BUFSIZE_CHESHIRE 4096 512 State.init (by decide) (by decide)
      (by decide)⟩

theorem test_random_rw_reject (env : Env) (B buf size : Nat) (s : State) (o : Output)
    (h : (size / 256 > MAX_NUM_CHUNKS ∧ o = Output.tooManyChunks (size / 256) MAX_NUM_CHUNKS)
      ∨ (¬ size / 256 > MAX_NUM_CHUNKS ∧ mul64 (size / 256) 256 > B
          ∧ o = Output.tooManyForBuffer (size / 256) (mul64 (size / 256) 256) B)) :
    test_random_rw env B buf size s
      = { s with trace := s.trace ++ [Event.call_test_random_rw buf size, Event.printf o] } := by
  rcases h with ⟨h1, rfl⟩ | ⟨h1, h2, rfl⟩
  · simp [test_random_rw, h1, printf, State.emit]
  · simp [test_random_rw, h1, h2, printf, State.emit]

/-- C5: `test_random_rw` rejects `size` exactly when `size / 256 > MAX_NUM_CHUNKS` or
`(size / 256) * 256 > BUFSIZE`. In that case the call appends to the trace its entry
marker and one error line and nothing else (no `random()` draw, no kernel, no data row),
and leaves the rest of the state (the counts of draws and kernel invocations, the two
tables, the buffer) as it was. In every other case
the lines it writes are exactly one `random` data row. -/
theorem random_rejects_iff (env : Env) (BUFSIZE buf size : Nat) (s : State) :
    (size / 256 > MAX_NUM_CHUNKS ∨ size / 256 * 256 > BUFSIZE →
      ∃ o, o.isError = true ∧
        (test_random_rw env BUFSIZE buf size s).trace
          = s.trace ++ [Event.call_test_random_rw buf size, Event.printf o]
        ∧ (test_random_rw env BUFSIZE buf size s).randoms_drawn = s.randoms_drawn
        ∧ (test_random_rw env BUFSIZE buf size s).cycles_read = s.cycles_read
        ∧ (test_random_rw env BUFSIZE buf size s).kernels_run = s.kernels_run
        ∧ (test_random_rw env BUFSIZE buf size s).rd_chunks = s.rd_chunks
        ∧ (test_random_rw env BUFSIZE buf size s).wr_chunks = s.wr_chunks
        ∧ (test_random_rw env BUFSIZE buf size s).buffer = s.buffer)
    ∧ (¬ (size / 256 > MAX_NUM_CHUNKS ∨ size / 256 * 256 > BUFSIZE) →
      ∃ rd wr, outputs (test_random_rw env BUFSIZE buf size s).trace
        = outputs s.trace ++ [Output.row TestName.random 1000 (size / 8) 8 rd wr]) := by
  constructor
  · intro h
    by_cases h1 : size / 256 > MAX_NUM_CHUNKS
    · refine ⟨Output.tooManyChunks (size / 256) MAX_NUM_CHUNKS, rfl, ?_⟩
      rw [test_random_rw_reject env BUFSIZE buf size s _ (Or.inl ⟨h1, rfl⟩)]
      exact ⟨rfl, rfl, rfl, rfl, rfl, rfl, rfl⟩
    · have h2 : mul64 (size / 256) 256 > BUFSIZE := by
        simp only [MAX_NUM_CHUNKS] at h h1
        unfold mul64; omega
      refine ⟨Output.tooManyForBuffer (size / 256) (mul64 (size / 256) 256) BUFSIZE, rfl, ?_⟩
      rw [test_random_rw_reject env BUFSIZE buf size s _ (Or.inr ⟨h1, h2, rfl⟩)]
      exact ⟨rfl, rfl, rfl, rfl, rfl, rfl, rfl⟩
  · intro h
    have h1 : ¬ size / 256 > MAX_NUM_CHUNKS := fun c => h (Or.inl c)
    have h2 : ¬ mul64 (size / 256) 256 > BUFSIZE := by
      simp only [MAX_NUM_CHUNKS] at h h1
      unfold mul64; omega
    rw [test_random_rw_outputs, if_neg h1, if_neg h2]
    exact ⟨_, _, rfl⟩

/-- Witness of C5: `size = 16385 * 256` is rejected, `size = 512` is not. -/
theorem random_rejects_iff_witness :
    (16385 * 256 / 256 > MAX_NUM_CHUNKS ∨ 16385 * 256 / 256 * 256 > BUFSIZE_HOST) ∧
    (∃ o, o.isError = true ∧
        (test_random_rw env0 BUFSIZE_HOST 0 (16385 * 256) State.init).trace
          = State.init.trace ++ [Event.call_test_random_rw 0 (16385 * 256), Event.printf o]
        ∧ (test_random_rw env0 BUFSIZE_HOST 0 (16385 * 256) State.init).randoms_drawn
            = State.init.randoms_drawn
        ∧ (test_random_rw env0 BUFSIZE_HOST 0 (16385 * 256) State.init).cycles_read
            = State.init.cycles_read
        ∧ (test_random_rw env0 BUFSIZE_HOST 0 (16385 * 256) State.init).kernels_run
            = State.init.kernels_run
        ∧ (test_random_rw env0 BUFSIZE_HOST 0 (16385 * 256) State.init).rd_chunks
            = State.init.rd_chunks
        ∧ (test_random_rw env0 BUFSIZE_HOST 0 (16385 * 256) State.init).wr_chunks
            = State.init.wr_chunks
        ∧ (test_random_rw env0 BUFSIZE_HOST 0 (16385 * 256) State.init).buffer
            = State.init.buffer) ∧
    ¬ (512 / 256 > MAX_NUM_CHUNKS ∨ 512 / 256 * 256 > BUFSIZE_HOST) ∧
    (∃ rd wr, outputs (test_random_rw env0 BUFSIZE_HOST 0 512 State.init).trace
        = outputs State.init.trace ++ [Output.row TestName.random 1000 (512 / 8) 8 rd wr]) :=
  ⟨Or.inl (by decide),
    (random_rejects_iff env0 BUFSIZE_HOST 0 (16385 * 256) State.init).1 (Or.inl (by decide)),
    by decide,
    (random_rejects_iff env0 BUFSIZE_HOST 0 512 State.init).2 (by decide)⟩

/-! ## The subdivision of the steps -/

theorem specStepSizes_small :
    specStepSizes 0 256 = [256] ∧ specStepSizes 256 512 = [512]
      ∧ specStepSizes 512 1024 = [768, 1024]
      ∧ specStepSizes 1024 2048 = [1280, 1536, 1792, 2048] := by
  refine ⟨?_, ?_, ?_, ?_⟩ <;> decide

theorem specStepSizes_big (y : Nat) (hy : 1 ≤ y) :
    specStepSizes (2048 * y) (4096 * y)
      = [2304 * y, 2560 * y, 2816 * y, 3072 * y, 3328 * y, 3584 * y, 3840 * y, 4096 * y] := by
  have e1 : 4096 * y - 2048 * y = 2048 * y := by omega
  have e2 : specSubdivisions (2048 * y) = 8 := by
    unfold specSubdivisions
    rw [if_pos (by omega)]
  have e3 : 2048 * y / 8 = 256 * y := by omega
  have e4 : List.range 8 = [0, 1, 2, 3, 4, 5, 6, 7] := by decide
  simp only [specStepSizes, e1, e2, e3, e4, List.map_cons, List.map_nil, List.cons.injEq,
    and_true]
  refine ⟨?_, ?_, ?_, ?_, ?_, ?_, ?_, ?_⟩ <;> omega

theorem stepSizes_eq_spec {p t : Nat} (h : DoublingStep p t) :
    stepSizes p t = specStepSizes p t ∧ (specStepSizes p t).getLast? = some t := by
  obtain ⟨s1, s2, s3, s4⟩ := stepSizes_small
  obtain ⟨c1, c2, c3, c4⟩ := specStepSizes_small
  rcases doubling_cases h with ⟨rfl, rfl⟩ | ⟨rfl, rfl⟩ | ⟨rfl, rfl⟩ | ⟨rfl, rfl⟩ | ⟨y, hy, rfl, rfl, hlt⟩
  · rw [s1, c1]; simp
  · rw [s2, c2]; simp
  · rw [s3, c3]; simp
  · rw [s4, c4]; simp
  · rw [stepSizes_big y hy hlt, specStepSizes_big y hy]; simp

/-- C6: in every doubling step `prev_transfer → transfer` of the stream sweep (the pairs
`(0, 256)`, `(256, 512)`, `(512, 1024)`, ... below `2 ^ 64`) the loop body passes to
`test_stream_rw` exactly the sizes `prev_transfer + k * (step / n)`, `k = 1, ..., n`, in
that order, where `step = transfer - prev_transfer` and `n` is 8, 4, 2 or 1 as `step`
is at least `8 * 256`, `4 * 256`, `2 * 256` or less; the last of them is `transfer`. The
loop runs its body on `(0, 256)` first and, after a step with `transfer ≤ BUFSIZE`, on the
next doubling step. In particular the step `0 → 256` passes exactly the size 256 and the
step `256 → 512` exactly the size 512. -/
theorem stream_step_sizes (env : Env) (buf : Nat) (s : State) :
    (∀ prev_transfer transfer, DoublingStep prev_transfer transfer →
      streamCalls (streamBody env buf prev_transfer transfer s).trace
          = streamCalls s.trace ++ specStepSizes prev_transfer transfer
        ∧ (specStepSizes prev_transfer transfer).getLast? = some transfer
        ∧ (∀ BUFSIZE fuel, transfer ≤ BUFSIZE →
            streamLoop env BUFSIZE buf (fuel + 1) prev_transfer transfer s
              = streamLoop env BUFSIZE buf fuel transfer (shl64 transfer 1)
                  (streamBody env buf prev_transfer transfer s))
        ∧ (transfer < 2 ^ 63 → DoublingStep transfer (shl64 transfer 1)))
    ∧ DoublingStep 0 256
    ∧ streamCalls (streamBody env buf 0 256 s).trace = streamCalls s.trace ++ [256]
    ∧ streamCalls (streamBody env buf 256 512 s).trace = streamCalls s.trace ++ [512] := by
  have key : ∀ p t, streamCalls (streamBody env buf p t s).trace
      = streamCalls s.trace ++ stepSizes p t :=
    fun p t => streamCalls_of_calls (streamBody_calls env buf p t s)
  refine ⟨fun p t hd => ⟨?_, (stepSizes_eq_spec hd).2, ?_, doubling_next hd⟩, doubling_init, ?_, ?_⟩
  · rw [key, (stepSizes_eq_spec hd).1]
  · intro B fuel hle
    simp only [streamLoop, if_pos hle]
  · rw [key, stepSizes_small.1]
  · rw [key, stepSizes_small.2.1]

/-- Witness of C6: the doubling step `1024 → 2048`, which passes four sizes. -/
theorem stream_step_sizes_witness :
    DoublingStep 1024 2048 ∧
      streamCalls (streamBody env0 0 1024 2048 State.init).trace
          = streamCalls State.init.trace ++ specStepSizes 1024 2048
        ∧ (specStepSizes 1024 2048).getLast? = some 2048
        ∧ (∀ BUFSIZE fuel, 2048 ≤ BUFSIZE →
            streamLoop env0 BUFSIZE 0 (fuel + 1) 1024 2048 State.init
              = streamLoop env0 BUFSIZE 0 fuel 2048 (shl64 2048 1)
                  (streamBody env0 0 1024 2048 State.init))
        ∧ (2048 < 2 ^ 63 → DoublingStep 2048 (shl64 2048 1)) :=
  ⟨Or.inr ⟨2, by decide, by decide, by decide⟩,
    (stream_step_sizes env0 0 State.init).1 1024 2048
      (Or.inr ⟨2, by decide, by decide, by decide⟩)⟩

/-- C8: started on `(0, 256)`, the random sweep passes to `test_random_rw` the very sizes
that the stream sweep passes to `test_stream_rw` when its bound `BUFSIZE` is replaced by
`min BUFSIZE (MAX_NUM_CHUNKS * 256)` (same fuel, any environments and start states), and
with at least 64 units of fuel both loops exit. Hence in `main` the sizes of the random
sweep are an initial segment of the sizes of the stream sweep; for `BUFSIZE < 2 ^ 63` and at
least 64 units of fuel they are the sizes of the stream sweep of `main` run with
`min BUFSIZE (MAX_NUM_CHUNKS * 256)`, and on the `__CHESHIRE__` profile
(`BUFSIZE = 512 KiB`) they are all the sizes of the stream sweep. -/
theorem random_sweep_refines_stream (env1 env2 : Env) (BUFSIZE buf1 buf2 fuel : Nat) :
    (∀ s1 s2 : State, ∃ sizes,
      randomCalls (randomLoop env1 BUFSIZE buf1 fuel 0 256 s1).state.trace
          = randomCalls s1.trace ++ sizes
        ∧ streamCalls (streamLoop env2 (min BUFSIZE (MAX_NUM_CHUNKS * 256)) buf2 fuel 0 256
              s2).state.trace
            = streamCalls s2.trace ++ sizes
        ∧ (64 ≤ fuel →
            (randomLoop env1 BUFSIZE buf1 fuel 0 256 s1).isFinished = true
              ∧ (streamLoop env2 (min BUFSIZE (MAX_NUM_CHUNKS * 256)) buf2 fuel 0 256
                  s2).isFinished = true))
    ∧ randomCalls (main env1 BUFSIZE buf1 fuel).state.trace
        <+: streamCalls (main env1 BUFSIZE buf1 fuel).state.trace
    ∧ (BUFSIZE < 2 ^ 63 → 64 ≤ fuel →
        randomCalls (main env1 BUFSIZE buf1 fuel).state.trace
          = streamCalls (main env2 (min BUFSIZE (MAX_NUM_CHUNKS * 256)) buf2 fuel).state.trace)
    ∧ (64 ≤ fuel →
        randomCalls (main env1 BUFSIZE_CHESHIRE buf1 fuel).state.trace
          = streamCalls (main env1 BUFSIZE_CHESHIRE buf1 fuel).state.trace) := by
  have hM : min BUFSIZE (MAX_NUM_CHUNKS * 256) < 2 ^ 63 := by
    simp only [MAX_NUM_CHUNKS]; omega
  refine ⟨fun s1 s2 => ⟨(sweep (streamCond (min BUFSIZE (MAX_NUM_CHUNKS * 256))) fuel 0 256).1,
    ?_, ?_, fun hf => ⟨?_, ?_⟩⟩, ?_, ?_, ?_⟩
  · rw [← random_sweep_eq]
    exact randomCalls_of_calls (randomLoop_calls env1 BUFSIZE buf1 fuel 0 256 s1).1
  · exact streamCalls_of_calls (streamLoop_calls env2 _ buf2 fuel 0 256 s2).1
  · rw [(randomLoop_calls env1 BUFSIZE buf1 fuel 0 256 s1).2, random_sweep_eq]
    exact sweep_done_of_le _ hM fuel hf 0
  · rw [(streamLoop_calls env2 _ buf2 fuel 0 256 s2).2]
    exact sweep_done_of_le _ hM fuel hf 0
  · rw [main_randomCalls, main_streamCalls, random_sweep_eq]
    split
    · exact sweep_initial_segment _ _ (Nat.min_le_left _ _) fuel 0 256
    · exact List.nil_prefix
  · intro hB hf
    rw [main_randomCalls, main_streamCalls, random_sweep_eq,
      if_pos (sweep_done_of_le BUFSIZE hB fuel hf 0)]
  · intro hf
    have hB : BUFSIZE_CHESHIRE < 2 ^ 63 := by decide
    have hmin : min BUFSIZE_CHESHIRE (MAX_NUM_CHUNKS * 256) = BUFSIZE_CHESHIRE := by decide
    rw [main_randomCalls, main_streamCalls, random_sweep_eq,
      if_pos (sweep_done_of_le BUFSIZE_CHESHIRE hB fuel hf 0), hmin]

/-- Witness of C8: the generic profile (`BUFSIZE = 128 MiB`) with 64 units of fuel. -/
theorem random_sweep_refines_stream_witness :
    BUFSIZE_HOST < 2 ^ 63 ∧ 64 ≤ 64 ∧
      randomCalls (main env0 BUFSIZE_HOST 0 64).state.trace
        = streamCalls (main env0 (min BUFSIZE_HOST (MAX_NUM_CHUNKS * 256)) 0 64).state.trace :=
  ⟨by decide, by decide,
    (random_sweep_refines_stream env0 env0 BUFSIZE_HOST 0 0 64).2.2.1 (by decide) (by decide)⟩

/-- C9: the data row of each test. `test_stream_rw(buf, size)` writes the row
`stream,1000,size/8,8,rd,wr`, `test_random_rw(buf, size)` on its non-error path the row
`random,1000,size/8,8,rd,wr` and `test_stride_rw(buf, num_accesses, stride)` the row
`stride,1000,num_accesses/8,stride*8,rd,wr` (the product taken in 64 bits), each as the
only line of the call. Here `rd` is the difference of the fourth and third counter reading
of the call (those around the read kernel) divided by 1000, `wr` that of the second and
first (those around the write kernel), and the text of a row has the read figure before
the write figure. -/
theorem data_row_fields (env : Env) (BUFSIZE buf size num_accesses stride : Nat) (s : State) :
    outputs (test_stream_rw env buf size s).trace
        = outputs s.trace ++ [Output.row TestName.stream 1000 (size / 8) 8
            (sub64 (env.cycle (s.cycles_read + 3) % 2 ^ 64)
              (env.cycle (s.cycles_read + 2) % 2 ^ 64) / 1000)
            (sub64 (env.cycle (s.cycles_read + 1) % 2 ^ 64)
              (env.cycle s.cycles_read % 2 ^ 64) / 1000)]
    ∧ (size / 256 ≤ MAX_NUM_CHUNKS → mul64 (size / 256) 256 ≤ BUFSIZE →
        outputs (test_random_rw env BUFSIZE buf size s).trace
          = outputs s.trace ++ [Output.row TestName.random 1000 (size / 8) 8
              (sub64 (env.cycle (s.cycles_read + 3) % 2 ^ 64)
                (env.cycle (s.cycles_read + 2) % 2 ^ 64) / 1000)
              (sub64 (env.cycle (s.cycles_read + 1) % 2 ^ 64)
                (env.cycle s.cycles_read % 2 ^ 64) / 1000)])
    ∧ outputs (test_stride_rw env buf num_accesses stride s).trace
        = outputs s.trace ++ [Output.row TestName.stride 1000 (num_accesses / 8)
            (stride * 8 % 2 ^ 64)
            (sub64 (env.cycle (s.cycles_read + 3) % 2 ^ 64)
              (env.cycle (s.cycles_read + 2) % 2 ^ 64) / 1000)
            (sub64 (env.cycle (s.cycles_read + 1) % 2 ^ 64)
              (env.cycle s.cycles_read % 2 ^ 64) / 1000)]
    ∧ (∀ name iters accesses unit rd wr,
        (Output.row name iters accesses unit rd wr).render
          = name.render ++ "," ++ toString iters ++ "," ++ toString accesses ++ ","
              ++ toString unit ++ "," ++ toString rd ++ "," ++ toString wr ++ "\r\n")
    ∧ TestName.stream.render = "stream" ∧ TestName.random.render = "random"
    ∧ TestName.stride.render = "stride" := by
  refine ⟨test_stream_rw_outputs env buf size s, fun h1 h2 => ?_,
    test_stride_rw_outputs env buf num_accesses stride s, fun _ _ _ _ _ _ => rfl, rfl, rfl, rfl⟩
  have h3 : ¬ size / 256 > MAX_NUM_CHUNKS := by omega
  have h4 : ¬ mul64 (size / 256) 256 > BUFSIZE := by omega
  rw [test_random_rw_outputs, if_neg h3, if_neg h4]
  rfl

/-- Witness of C9: `test_random_rw` with `size = 512` on the `__CHESHIRE__` profile. -/
theorem data_row_fields_witness :
    512 / 256 ≤ MAX_NUM_CHUNKS ∧ mul64 (512 / 256) 256 ≤ BUFSIZE_CHESHIRE ∧
      outputs (test_random_rw env0 BUFSIZE_CHESHIRE 0 512 State.init).trace
        = outputs State.init.trace ++ [Output.row TestName.random 1000 (512 / 8) 8
            (sub64 (env0.cycle (State.init.cycles_read + 3) % 2 ^ 64)
              (env0.cycle (State.init.cycles_read + 2) % 2 ^ 64) / 1000)
            (sub64 (env0.cycle (State.init.cycles_read + 1) % 2 ^ 64)
              (env0.cycle State.init.cycles_read % 2 ^ 64) / 1000)] :=
  ⟨by decide, by decide,
    (data_row_fields env0 BUFSIZE_CHESHIRE 0 512 0 0 State.init).2.1 (by decide) (by decide)⟩

/-- C10: for every environment, every `BUFSIZE` and whatever the fuel, the first line
that `main` writes is the header row, no later line is the header row (so it is written
exactly once, before every data row), and its text is
`test_name,test_iterations,number_of_accesses,stride,read_cycles,write_cycles`. -/
theorem header_once_first (env : Env) (BUFSIZE buffer fuel : Nat) :
    (∃ rest, outputs (main env BUFSIZE buffer fuel).state.trace = Output.header :: rest
      ∧ Output.header ∉ rest)
    ∧ (outputs (main env BUFSIZE buffer fuel).state.trace).count Output.header = 1
    ∧ Output.header.render
        = "test_name,test_iterations,number_of_accesses,stride,read_cycles,write_cycles\r\n" := by
  obtain ⟨l, e, p⟩ := main_outputs env BUFSIZE buffer fuel
  have hn : Output.header ∉ l := by
    intro h
    rcases p _ h with h1 | h1
    · simp [Output.isRow] at h1
    · cases h1
  refine ⟨⟨l, e, hn⟩, ?_, rfl⟩
  rw [e, List.count_cons_self, List.count_eq_zero_of_not_mem hn]

/-! ## The complete trace of one test -/

theorem draws_succ_succ (env : Env) (first count : Nat) :
    draws env first (count + 2)
      = env.random first % 2 ^ 64 :: env.random (first + 1) % 2 ^ 64
          :: draws env (first + 2) count := by
  unfold draws
  rw [List.range_succ_eq_map, List.range_succ_eq_map]
  simp only [List.map_cons, List.map_map, Nat.add_zero, List.cons.injEq, true_and]
  apply List.map_congr_left
  intro m _
  simp only [Function.comp_apply, Nat.succ_eq_add_one]
  congr 2
  omega

theorem fillChunks_trace (env : Env) (buf n : Nat) (hn : n ≤ 2 ^ 56) (fuel : Nat) :
    ∀ i s, i + fuel = n →
      (fillChunks env buf n fuel i s).trace
          = s.trace ++ (draws env s.randoms_drawn (2 * fuel)).map Event.random
        ∧ (fillChunks env buf n fuel i s).cycles_read = s.cycles_read
        ∧ (fillChunks env buf n fuel i s).kernels_run = s.kernels_run := by
  induction fuel with
  | zero => intro i s _; simp [fillChunks, draws]
  | succ fuel ih =>
    intro i s h
    have hi : i < n := by omega
    have ha : add64 i 1 = i + 1 := by unfold add64; omega
    simp only [fillChunks, if_pos hi, ha]
    obtain ⟨h1, h2, h3⟩ := ih (i + 1)
      { (random env (random env s).2).2 with
        rd_chunks := Function.update (random env (random env s).2).2.rd_chunks i
          (add64 buf (mul64 256 ((random env s).1 % n))),
        wr_chunks := Function.update (random env (random env s).2).2.wr_chunks i
          (add64 buf (mul64 256 ((random env (random env s).2).1 % n))) } (by omega)
    refine ⟨?_, ?_, ?_⟩
    · rw [h1, show 2 * (fuel + 1) = 2 * fuel + 2 from by ring, draws_succ_succ]
      simp [random]
    · rw [h2]; rfl
    · rw [h3]; rfl


theorem draws_getD (env : Env) (first count k : Nat) (h : k < count) :
    (draws env first count).getD k 0 = env.random (first + k) % 2 ^ 64 := by
  simp [draws, List.getD_eq_getElem?_getD, List.getElem?_map, List.getElem?_range h]

theorem draws_length (env : Env) (first count : Nat) :
    (draws env first count).length = count := by
  simp [draws]

theorem test_stream_rw_trace (env : Env) (buf size : Nat) (s : State) :
    (test_stream_rw env buf size s).trace
        = s.trace ++ [Event.call_test_stream_rw buf size, Event.fence,
            Event.read_cycle (env.cycle s.cycles_read % 2 ^ 64),
            Event.asm_stream_write buf size 1000,
            Event.read_cycle (env.cycle (s.cycles_read + 1) % 2 ^ 64),
            Event.fence,
            Event.read_cycle (env.cycle (s.cycles_read + 2) % 2 ^ 64),
            Event.asm_stream_read buf size 1000,
            Event.read_cycle (env.cycle (s.cycles_read + 3) % 2 ^ 64),
            Event.printf (Output.row TestName.stream 1000 (size / 8) 8
              (sub64 (env.cycle (s.cycles_read + 3) % 2 ^ 64)
                (env.cycle (s.cycles_read + 2) % 2 ^ 64) / 1000)
              (sub64 (env.cycle (s.cycles_read + 1) % 2 ^ 64)
                (env.cycle s.cycles_read % 2 ^ 64) / 1000))]
      ∧ (test_stream_rw env buf size s).kernels_run = s.kernels_run + 2 := by
  simp [test_stream_rw, printf, fence, read_cycle, kernel, State.emit, TEST_ITERS]

theorem test_stride_rw_trace (env : Env) (buf n stride : Nat) (s : State) :
    (test_stride_rw env buf n stride s).trace
        = s.trace ++ [Event.call_test_stride_rw buf n stride, Event.fence,
            Event.read_cycle (env.cycle s.cycles_read % 2 ^ 64),
            Event.asm_stride_write buf (n / 8) (stride * 8 % 2 ^ 64) 1000,
            Event.read_cycle (env.cycle (s.cycles_read + 1) % 2 ^ 64),
            Event.fence,
            Event.read_cycle (env.cycle (s.cycles_read + 2) % 2 ^ 64),
            Event.asm_stride_read buf (n / 8) (stride * 8 % 2 ^ 64) 1000,
            Event.read_cycle (env.cycle (s.cycles_read + 3) % 2 ^ 64),
            Event.printf (Output.row TestName.stride 1000 (n / 8) (stride * 8 % 2 ^ 64)
              (sub64 (env.cycle (s.cycles_read + 3) % 2 ^ 64)
                (env.cycle (s.cycles_read + 2) % 2 ^ 64) / 1000)
              (sub64 (env.cycle (s.cycles_read + 1) % 2 ^ 64)
                (env.cycle s.cycles_read % 2 ^ 64) / 1000))]
      ∧ (test_stride_rw env buf n stride s).kernels_run = s.kernels_run + 2 := by
  simp [test_stride_rw, printf, fence, read_cycle, kernel, State.emit, TEST_ITERS, mul64]

theorem test_random_rw_trace (env : Env) (B buf size : Nat) (s : State)
    (h1 : size / 256 ≤ MAX_NUM_CHUNKS) (h2 : mul64 (size / 256) 256 ≤ B) :
    (test_random_rw env B buf size s).trace
        = s.trace ++ Event.call_test_random_rw buf size
            :: (draws env s.randoms_drawn (2 * (size / 256))).map Event.random
            ++ [Event.fence,
            Event.read_cycle (env.cycle s.cycles_read % 2 ^ 64),
            Event.asm_random_write ChunkTable.wr_chunks (size / 256) 1000,
            Event.read_cycle (env.cycle (s.cycles_read + 1) % 2 ^ 64),
            Event.fence,
            Event.read_cycle (env.cycle (s.cycles_read + 2) % 2 ^ 64),
            Event.asm_random_read ChunkTable.rd_chunks (size / 256) 1000,
            Event.read_cycle (env.cycle (s.cycles_read + 3) % 2 ^ 64),
            Event.printf (Output.row TestName.random 1000 (size / 8) 8
              (sub64 (env.cycle (s.cycles_read + 3) % 2 ^ 64)
                (env.cycle (s.cycles_read + 2) % 2 ^ 64) / 1000)
              (sub64 (env.cycle (s.cycles_read + 1) % 2 ^ 64)
                (env.cycle s.cycles_read % 2 ^ 64) / 1000))]
      ∧ (test_random_rw env B buf size s).kernels_run = s.kernels_run + 2 := by
  have h3 : ¬ size / 256 > MAX_NUM_CHUNKS := by omega
  have h4 : ¬ mul64 (size / 256) 256 > B := by omega
  have hn : size / 256 ≤ 2 ^ 56 := by simp only [MAX_NUM_CHUNKS] at h1; omega
  obtain ⟨f1, f2, f3⟩ := fillChunks_trace env buf (size / 256) hn (size / 256) 0
    (s.emit (Event.call_test_random_rw buf size)) (by omega)
  simp only [State.emit] at f1 f2 f3
  simp [test_random_rw, h3, h4, printf, fence, read_cycle, kernel, State.emit, TEST_ITERS,
    f1, f2, f3]

/-! ## The cycle figures -/

theorem figure_exact (t0 t1 : Nat) (h0 : t0 < 2 ^ 64) (h1 : t1 < 2 ^ 64) (h : t0 ≤ t1) :
    sub64 t1 t0 = t1 - t0
      ∧ ((figure t0 t1 : Nat) : Int) = ((t1 : Int) - (t0 : Int)) / 1000
      ∧ (0 : Int) ≤ ((figure t0 t1 : Nat) : Int) := by
  have e : sub64 t1 t0 = t1 - t0 := by unfold sub64; omega
  refine ⟨e, ?_, Int.ofNat_nonneg _⟩
  unfold figure
  rw [e]
  simp only [TEST_ITERS]
  omega

/-- C11: each of the three tests (`test_random_rw` on its non-error path) reads the
counter four times, readings `c` and `c + 1` of the run around the write kernel and
`c + 2` and `c + 3` around the read kernel, and reports
`figure (reading (c + 2)) (reading (c + 3))` as read figure and
`figure (reading c) (reading (c + 1))` as write figure. For all 64-bit readings `t0 ≤ t1`
the 64-bit subtraction in `figure t0 t1` does not wrap and the figure is
`(t1 - t0) / 1000` rounded down over the integers, a non-negative integer. -/
theorem cycles_per_iter_exact (env : Env) (BUFSIZE buf size num_accesses stride : Nat)
    (s : State) :
    outputs (test_stream_rw env buf size s).trace
        = outputs s.trace ++ [Output.row TestName.stream 1000 (size / 8) 8
            (figure (reading env (s.cycles_read + 2)) (reading env (s.cycles_read + 3)))
            (figure (reading env s.cycles_read) (reading env (s.cycles_read + 1)))]
    ∧ outputs (test_stride_rw env buf num_accesses stride s).trace
        = outputs s.trace ++ [Output.row TestName.stride 1000 (num_accesses / 8)
            (stride * 8 % 2 ^ 64)
            (figure (reading env (s.cycles_read + 2)) (reading env (s.cycles_read + 3)))
            (figure (reading env s.cycles_read) (reading env (s.cycles_read + 1)))]
    ∧ (size / 256 ≤ MAX_NUM_CHUNKS → mul64 (size / 256) 256 ≤ BUFSIZE →
        outputs (test_random_rw env BUFSIZE buf size s).trace
          = outputs s.trace ++ [Output.row TestName.random 1000 (size / 8) 8
              (figure (reading env (s.cycles_read + 2)) (reading env (s.cycles_read + 3)))
              (figure (reading env s.cycles_read) (reading env (s.cycles_read + 1)))])
    ∧ (∀ k, reading env k < 2 ^ 64)
    ∧ (∀ t0 t1, t0 < 2 ^ 64 → t1 < 2 ^ 64 → t0 ≤ t1 →
        sub64 t1 t0 = t1 - t0
          ∧ ((figure t0 t1 : Nat) : Int) = ((t1 : Int) - (t0 : Int)) / 1000
          ∧ (0 : Int) ≤ ((figure t0 t1 : Nat) : Int)) := by
  refine ⟨test_stream_rw_outputs env buf size s,
    test_stride_rw_outputs env buf num_accesses stride s, fun h1 h2 => ?_,
    fun k => Nat.mod_lt _ (by norm_num), figure_exact⟩
  have h3 : ¬ size / 256 > MAX_NUM_CHUNKS := by omega
  have h4 : ¬ mul64 (size / 256) 256 > BUFSIZE := by omega
  rw [test_random_rw_outputs, if_neg h3, if_neg h4]
  rfl

/-- Witness of C11: the readings 5 and 2005 give the figure 2. -/
theorem cycles_per_iter_exact_witness :
    5 < 2 ^ 64 ∧ 2005 < 2 ^ 64 ∧ 5 ≤ 2005 ∧
      sub64 2005 5 = 2005 - 5
        ∧ ((figure 5 2005 : Nat) : Int) = (((2005 : Nat) : Int) - ((5 : Nat) : Int)) / 1000
        ∧ (0 : Int) ≤ ((figure 5 2005 : Nat) : Int) :=
  ⟨by decide, by decide, by decide,
    (cycles_per_iter_exact env0 BUFSIZE_CHESHIRE 0 512 0 0 State.init).2.2.2.2 5 2005
      (by decide) (by decide) (by decide)⟩

/-! ## The event sequence of a test and the chunks addressed -/

/-- C14: one call of `test_stream_rw`, of `test_stride_rw`, or of `test_random_rw` on its
non-error path appends to the trace, after its entry marker (and, for `test_random_rw`,
the `random()` draws that fill the tables), exactly: fence, counter read, write kernel,
counter read, fence, counter read, read kernel, counter read, one data row. Each kernel is
invoked once (two kernel invocations per call), with iteration count 1000, the write
kernel before the read kernel. -/
theorem timed_event_sequence (env : Env) (BUFSIZE buf size num_accesses stride : Nat)
    (s : State) :
    ((test_stream_rw env buf size s).trace
        = s.trace ++ [Event.call_test_stream_rw buf size,
            Event.fence,
            Event.read_cycle (reading env s.cycles_read),
            Event.asm_stream_write buf size 1000,
            Event.read_cycle (reading env (s.cycles_read + 1)),
            Event.fence,
            Event.read_cycle (reading env (s.cycles_read + 2)),
            Event.asm_stream_read buf size 1000,
            Event.read_cycle (reading env (s.cycles_read + 3)),
            Event.printf (Output.row TestName.stream 1000 (size / 8) 8
              (figure (reading env (s.cycles_read + 2)) (reading env (s.cycles_read + 3)))
              (figure (reading env s.cycles_read) (reading env (s.cycles_read + 1))))]
      ∧ (test_stream_rw env buf size s).kernels_run = s.kernels_run + 2)
    ∧ ((test_stride_rw env buf num_accesses stride s).trace
        = s.trace ++ [Event.call_test_stride_rw buf num_accesses stride,
            Event.fence,
            Event.read_cycle (reading env s.cycles_read),
            Event.asm_stride_write buf (num_accesses / 8) (stride * 8 % 2 ^ 64) 1000,
            Event.read_cycle (reading env (s.cycles_read + 1)),
            Event.fence,
            Event.read_cycle (reading env (s.cycles_read + 2)),
            Event.asm_stride_read buf (num_accesses / 8) (stride * 8 % 2 ^ 64) 1000,
            Event.read_cycle (reading env (s.cycles_read + 3)),
            Event.printf (Output.row TestName.stride 1000 (num_accesses / 8)
              (stride * 8 % 2 ^ 64)
              (figure (reading env (s.cycles_read + 2)) (reading env (s.cycles_read + 3)))
              (figure (reading env s.cycles_read) (reading env (s.cycles_read + 1))))]
      ∧ (test_stride_rw env buf num_accesses stride s).kernels_run = s.kernels_run + 2)
    ∧ (size / 256 ≤ MAX_NUM_CHUNKS → mul64 (size / 256) 256 ≤ BUFSIZE →
      (test_random_rw env BUFSIZE buf size s).trace
        = s.trace ++ Event.call_test_random_rw buf size
            :: (draws env s.randoms_drawn (2 * (size / 256))).map Event.random
            ++ [Event.fence,
            Event.read_cycle (reading env s.cycles_read),
            Event.asm_random_write ChunkTable.wr_chunks (size / 256) 1000,
            Event.read_cycle (reading env (s.cycles_read + 1)),
            Event.fence,
            Event.read_cycle (reading env (s.cycles_read + 2)),
            Event.asm_random_read ChunkTable.rd_chunks (size / 256) 1000,
            Event.read_cycle (reading env (s.cycles_read + 3)),
            Event.printf (Output.row TestName.random 1000 (size / 8) 8
              (figure (reading env (s.cycles_read + 2)) (reading env (s.cycles_read + 3)))
              (figure (reading env s.cycles_read) (reading env (s.cycles_read + 1))))]
      ∧ (test_random_rw env BUFSIZE buf size s).kernels_run = s.kernels_run + 2)
    ∧ TEST_ITERS = 1000 :=
  ⟨test_stream_rw_trace env buf size s, test_stride_rw_trace env buf num_accesses stride s,
    test_random_rw_trace env BUFSIZE buf size s, rfl⟩

/-- Witness of C14: `test_random_rw` with `size = 512` on the `__CHESHIRE__` profile. -/
theorem timed_event_sequence_witness :
    512 / 256 ≤ MAX_NUM_CHUNKS ∧ mul64 (512 / 256) 256 ≤ BUFSIZE_CHESHIRE ∧
      (test_random_rw env0 BUFSIZE_CHESHIRE 0 512 State.init).trace
        = State.init.trace ++ Event.call_test_random_rw 0 512
            :: (draws env0 State.init.randoms_drawn (2 * (512 / 256))).map Event.random
            ++ [Event.fence,
            Event.read_cycle (reading env0 State.init.cycles_read),
            Event.asm_random_write ChunkTable.wr_chunks (512 / 256) 1000,
            Event.read_cycle (reading env0 (State.init.cycles_read + 1)),
            Event.fence,
            Event.read_cycle (reading env0 (State.init.cycles_read + 2)),
            Event.asm_random_read ChunkTable.rd_chunks (512 / 256) 1000,
            Event.read_cycle (reading env0 (State.init.cycles_read + 3)),
            Event.printf (Output.row TestName.random 1000 (512 / 8) 8
              (figure (reading env0 (State.init.cycles_read + 2))
                (reading env0 (State.init.cycles_read + 3)))
              (figure (reading env0 State.init.cycles_read)
                (reading env0 (State.init.cycles_read + 1))))]
      ∧ (test_random_rw env0 BUFSIZE_CHESHIRE 0 512 State.init).kernels_run
          = State.init.kernels_run + 2 :=
  ⟨by decide, by decide,
    (timed_event_sequence env0 BUFSIZE_CHESHIRE 0 512 0 0 State.init).2.2.1
      (by decide) (by decide)⟩

/-- C16: when `size` passes both checks of `test_random_rw`, then for every environment
and every `i < size / 256` the 64-bit addresses left in `rd_chunks[i]` and `wr_chunks[i]`
are `buf + offset` (taken modulo `2 ^ 64`, as pointers are) with `offset` a multiple of 256
and `offset + 256 ≤ BUFSIZE`. When the `num_chunks * 256` bytes at `buf` lie in the 64-bit
address space (as for every pointer to a buffer of `BUFSIZE` bytes) the sum does not wrap:
the address is `buf + offset` and the 256-byte chunk addressed lies inside the buffer. -/
theorem chunks_inside_buffer (env : Env) (BUFSIZE buf size : Nat) (s : State)
    (h1 : size / 256 ≤ MAX_NUM_CHUNKS) (h2 : mul64 (size / 256) 256 ≤ BUFSIZE) :
    ∀ i, i < size / 256 →
      (∃ offset, offset % 256 = 0 ∧ offset + 256 ≤ BUFSIZE
        ∧ (test_random_rw env BUFSIZE buf size s).rd_chunks i = (buf + offset) % 2 ^ 64)
      ∧ (∃ offset, offset % 256 = 0 ∧ offset + 256 ≤ BUFSIZE
        ∧ (test_random_rw env BUFSIZE buf size s).wr_chunks i = (buf + offset) % 2 ^ 64)
      ∧ (buf + size / 256 * 256 ≤ 2 ^ 64 →
          (∃ offset, offset % 256 = 0 ∧ offset + 256 ≤ BUFSIZE
            ∧ (test_random_rw env BUFSIZE buf size s).rd_chunks i = buf + offset)
          ∧ (∃ offset, offset % 256 = 0 ∧ offset + 256 ≤ BUFSIZE
            ∧ (test_random_rw env BUFSIZE buf size s).wr_chunks i = buf + offset)) := by
  intro i hi
  obtain ⟨t1, t2, _⟩ := test_random_rw_tables env BUFSIZE buf size s h1 h2
  rw [t1 i, t2 i, if_pos hi, if_pos hi]
  have hpos : 0 < size / 256 := by omega
  have r1 := Nat.mod_lt (env.random (s.randoms_drawn + 2 * i) % 2 ^ 64) hpos
  have r2 := Nat.mod_lt (env.random (s.randoms_drawn + 2 * i + 1) % 2 ^ 64) hpos
  have hm : mul64 (size / 256) 256 = size / 256 * 256 := by
    simp only [MAX_NUM_CHUNKS] at h1
    unfold mul64; omega
  rw [hm] at h2
  refine ⟨⟨_, by omega, by omega, rfl⟩, ⟨_, by omega, by omega, rfl⟩, fun h3 => ?_⟩
  exact ⟨⟨_, by omega, by omega, Nat.mod_eq_of_lt (by omega)⟩,
    ⟨_, by omega, by omega, Nat.mod_eq_of_lt (by omega)⟩⟩

/-- Witness of C16: `size = 512` (two chunks) at address 4096 on the `__CHESHIRE__`
profile. -/
theorem chunks_inside_buffer_witness :
    512 / 256 ≤ MAX_NUM_CHUNKS ∧ mul64 (512 / 256) 256 ≤ BUFSIZE_CHESHIRE ∧
    4096 + 512 / 256 * 256 ≤ 2 ^ 64 ∧
    ∀ i, i < 512 / 256 →
      (∃ offset, offset % 256 = 0 ∧ offset + 256 ≤ BUFSIZE_CHESHIRE
        ∧ (test_random_rw env0 BUFSIZE_CHESHIRE 4096 512 State.init).rd_chunks i
            = 4096 + offset)
      ∧ (∃ offset, offset % 256 = 0 ∧ offset + 256 ≤ BUFSIZE_CHESHIRE
        ∧ (test_random_rw env0 BUFSIZE_CHESHIRE 4096 512 State.init).wr_chunks i
            = 4096 + offset) :=
  ⟨by decide, by decide, by decide, fun i hi =>
    (chunks_inside_buffer env0 BUFSIZE_CHESHIRE 4096 512 State.init (by decide) (by decide)
      i hi).2.2 (by decide)⟩

/-! ## The draws of `test_random_rw` and the entries it writes -/

theorem fillChunks_skip (env : Env) (buf n fuel i : Nat) (s : State) (h : ¬ i < n) :
    fillChunks env buf n fuel i s = s := by
  cases fuel with
  | zero => rfl
  | succ fuel => simp [fillChunks, h]

theorem randomDraws_map (l : List Nat) : randomDraws (l.map Event.random) = l := by
  induction l with
  | nil => rfl
  | cons a l ih =>
    simp only [randomDraws, List.map_cons, List.filterMap_cons, Event.toDraw] at ih ⊢
    rw [ih]

theorem test_random_rw_draws (env : Env) (B buf size : Nat) (s : State)
    (h1 : size / 256 ≤ MAX_NUM_CHUNKS) (h2 : mul64 (size / 256) 256 ≤ B) :
    randomDraws (test_random_rw env B buf size s).trace
      = randomDraws s.trace ++ draws env s.randoms_drawn (2 * (size / 256)) := by
  rw [(test_random_rw_trace env B buf size s h1 h2).1]
  have e := randomDraws_map (draws env s.randoms_drawn (2 * (size / 256)))
  simp only [randomDraws] at e ⊢
  simp [List.filterMap_append, Event.toDraw, e]

/-- C19: the body of the loop of `test_random_rw`, the only place where
`random() % num_chunks` is evaluated, runs only while `i < num_chunks`; so a call that
draws a random number at all has `num_chunks = size / 256 > 0`, for every `size` and
`BUFSIZE`. For `size < 256` (`num_chunks = 0`) the call passes both checks, draws no random
number, leaves both tables as they were and invokes the write and the read kernel with
chunk count 0. -/
theorem zero_chunks_no_draw (env : Env) (BUFSIZE buf size : Nat) (s : State) :
    (∀ num_chunks fuel i s1, ¬ i < num_chunks →
        fillChunks env buf num_chunks fuel i s1 = s1)
    ∧ ((test_random_rw env BUFSIZE buf size s).randoms_drawn ≠ s.randoms_drawn →
        0 < size / 256)
    ∧ (randomDraws (test_random_rw env BUFSIZE buf size s).trace ≠ randomDraws s.trace →
        0 < size / 256)
    ∧ (size < 256 →
        (test_random_rw env BUFSIZE buf size s).trace
          = s.trace ++ [Event.call_test_random_rw buf size,
              Event.fence,
              Event.read_cycle (reading env s.cycles_read),
              Event.asm_random_write ChunkTable.wr_chunks 0 1000,
              Event.read_cycle (reading env (s.cycles_read + 1)),
              Event.fence,
              Event.read_cycle (reading env (s.cycles_read + 2)),
              Event.asm_random_read ChunkTable.rd_chunks 0 1000,
              Event.read_cycle (reading env (s.cycles_read + 3)),
              Event.printf (Output.row TestName.random 1000 (size / 8) 8
                (figure (reading env (s.cycles_read + 2)) (reading env (s.cycles_read + 3)))
                (figure (reading env s.cycles_read) (reading env (s.cycles_read + 1))))]
        ∧ (test_random_rw env BUFSIZE buf size s).randoms_drawn = s.randoms_drawn
        ∧ (test_random_rw env BUFSIZE buf size s).rd_chunks = s.rd_chunks
        ∧ (test_random_rw env BUFSIZE buf size s).wr_chunks = s.wr_chunks) := by
  have key : ¬ (size / 256 ≤ MAX_NUM_CHUNKS ∧ mul64 (size / 256) 256 ≤ BUFSIZE) →
      test_random_rw env BUFSIZE buf size s
        = { s with trace := s.trace ++ [Event.call_test_random_rw buf size,
              Event.printf (if size / 256 > MAX_NUM_CHUNKS then
                Output.tooManyChunks (size / 256) MAX_NUM_CHUNKS
              else Output.tooManyForBuffer (size / 256) (mul64 (size / 256) 256) BUFSIZE)] } := by
    intro h
    by_cases c : size / 256 > MAX_NUM_CHUNKS
    · rw [if_pos c]
      exact test_random_rw_reject env BUFSIZE buf size s _ (Or.inl ⟨c, rfl⟩)
    · rw [if_neg c]
      exact test_random_rw_reject env BUFSIZE buf size s _
        (Or.inr ⟨c, by omega, rfl⟩)
  refine ⟨fun n fuel i s1 h => fillChunks_skip env buf n fuel i s1 h, ?_, ?_, ?_⟩
  · intro h
    by_cases c : size / 256 ≤ MAX_NUM_CHUNKS ∧ mul64 (size / 256) 256 ≤ BUFSIZE
    · rw [(test_random_rw_tables env BUFSIZE buf size s c.1 c.2).2.2] at h
      omega
    · rw [key c] at h
      exact absurd rfl h
  · intro h
    by_cases c : size / 256 ≤ MAX_NUM_CHUNKS ∧ mul64 (size / 256) 256 ≤ BUFSIZE
    · rw [test_random_rw_draws env BUFSIZE buf size s c.1 c.2] at h
      rcases Nat.eq_zero_or_pos (size / 256) with h0 | h0
      · rw [h0] at h
        simp [draws] at h
      · exact h0
    · rw [key c] at h
      simp [randomDraws, List.filterMap_append, Event.toDraw] at h
  · intro h
    have h0 : size / 256 = 0 := by omega
    have c1 : size / 256 ≤ MAX_NUM_CHUNKS := by rw [h0]; exact Nat.zero_le _
    have c2 : mul64 (size / 256) 256 ≤ BUFSIZE := by rw [h0]; exact Nat.zero_le _
    obtain ⟨t1, t2, t3⟩ := test_random_rw_tables env BUFSIZE buf size s c1 c2
    obtain ⟨tr, _⟩ := test_random_rw_trace env BUFSIZE buf size s c1 c2
    refine ⟨?_, by rw [t3, h0]; rfl, ?_, ?_⟩
    · rw [tr, h0]
      simp [draws, reading, figure, TEST_ITERS]
    · funext j
      rw [t1 j, h0]
      simp
    · funext j
      rw [t2 j, h0]
      simp

/-- Witness of C19: `size = 100` on the `__CHESHIRE__` profile. -/
theorem zero_chunks_no_draw_witness :
    100 < 256 ∧
      (test_random_rw env0 BUFSIZE_CHESHIRE 0 100 State.init).randoms_drawn
          = State.init.randoms_drawn
        ∧ (test_random_rw env0 BUFSIZE_CHESHIRE 0 100 State.init).rd_chunks
          = State.init.rd_chunks
        ∧ (test_random_rw env0 BUFSIZE_CHESHIRE 0 100 State.init).wr_chunks
          = State.init.wr_chunks :=
  ⟨by decide,
    ((zero_chunks_no_draw env0 BUFSIZE_CHESHIRE 0 100 State.init).2.2.2 (by decide)).2⟩

/-- C20: a call of `test_random_rw` with `n = size / 256` chunks that passes both checks
draws `2 * n` random numbers; entry `i < n` of `rd_chunks` becomes the 64-bit pointer
`buf + 256 * (d % n)` (the sum modulo `2 ^ 64`) for draw number `2 * i` of the call, `d`,
and entry `i` of `wr_chunks` the same for draw number `2 * i + 1` (counting from 0); every
entry at an index `j ≥ n` of either table keeps the value it had before the call. When
the `n * 256` bytes at `buf` lie in the 64-bit address space the sums do not wrap. -/
theorem random_tables_frame (env : Env) (BUFSIZE buf size : Nat) (s : State)
    (h1 : size / 256 ≤ MAX_NUM_CHUNKS) (h2 : mul64 (size / 256) 256 ≤ BUFSIZE) :
    randomDraws (test_random_rw env BUFSIZE buf size s).trace
        = randomDraws s.trace ++ draws env s.randoms_drawn (2 * (size / 256))
    ∧ (draws env s.randoms_drawn (2 * (size / 256))).length = 2 * (size / 256)
    ∧ (∀ i, i < size / 256 →
        (test_random_rw env BUFSIZE buf size s).rd_chunks i
            = (buf + 256 * ((draws env s.randoms_drawn (2 * (size / 256))).getD (2 * i) 0
                % (size / 256))) % 2 ^ 64
          ∧ (test_random_rw env BUFSIZE buf size s).wr_chunks i
            = (buf + 256 * ((draws env s.randoms_drawn (2 * (size / 256))).getD (2 * i + 1) 0
                % (size / 256))) % 2 ^ 64)
    ∧ (∀ j, size / 256 ≤ j →
        (test_random_rw env BUFSIZE buf size s).rd_chunks j = s.rd_chunks j
          ∧ (test_random_rw env BUFSIZE buf size s).wr_chunks j = s.wr_chunks j)
    ∧ (buf + size / 256 * 256 ≤ 2 ^ 64 → ∀ i, i < size / 256 →
        (test_random_rw env BUFSIZE buf size s).rd_chunks i
            = buf + 256 * ((draws env s.randoms_drawn (2 * (size / 256))).getD (2 * i) 0
                % (size / 256))
          ∧ (test_random_rw env BUFSIZE buf size s).wr_chunks i
            = buf + 256 * ((draws env s.randoms_drawn (2 * (size / 256))).getD (2 * i + 1) 0
                % (size / 256))) := by
  obtain ⟨t1, t2, _⟩ := test_random_rw_tables env BUFSIZE buf size s h1 h2
  refine ⟨test_random_rw_draws env BUFSIZE buf size s h1 h2, draws_length _ _ _, ?_, ?_, ?_⟩
  · intro i hi
    rw [t1 i, t2 i, if_pos hi, if_pos hi, draws_getD _ _ _ _ (by omega),
      draws_getD _ _ _ _ (by omega)]
    exact ⟨rfl, rfl⟩
  · intro j hj
    rw [t1 j, t2 j, if_neg (by omega), if_neg (by omega)]
    exact ⟨rfl, rfl⟩
  · intro h3 i hi
    rw [t1 i, t2 i, if_pos hi, if_pos hi, draws_getD _ _ _ _ (by omega),
      draws_getD _ _ _ _ (by omega)]
    have hpos : 0 < size / 256 := by omega
    have r1 := Nat.mod_lt (env.random (s.randoms_drawn + 2 * i) % 2 ^ 64) hpos
    have r2 := Nat.mod_lt (env.random (s.randoms_drawn + (2 * i + 1)) % 2 ^ 64) hpos
    have r3 := Nat.mod_lt (env.random (s.randoms_drawn + 2 * i + 1) % 2 ^ 64) hpos
    exact ⟨Nat.mod_eq_of_lt (by omega), Nat.mod_eq_of_lt (by omega)⟩

/-- Witness of C20: `size = 512` (two chunks) on the `__CHESHIRE__` profile. -/
theorem random_tables_frame_witness :
    512 / 256 ≤ MAX_NUM_CHUNKS ∧ mul64 (512 / 256) 256 ≤ BUFSIZE_CHESHIRE ∧
      ∀ j, 512 / 256 ≤ j →
        (test_random_rw env0 BUFSIZE_CHESHIRE 0 512 State.init).rd_chunks j
            = State.init.rd_chunks j
          ∧ (test_random_rw env0 BUFSIZE_CHESHIRE 0 512 State.init).wr_chunks j
            = State.init.wr_chunks j :=
  ⟨by decide, by decide,
    (random_tables_frame env0 BUFSIZE_CHESHIRE 0 512 State.init (by decide)
      (by decide)).2.2.2.1⟩

/-! ## The sweeps do not depend on the environment -/

theorem sweep_succ (c : Nat → Bool) (fuel p t : Nat) :
    sweep c (fuel + 1) p t
      = if c t = true then
          (stepSizes p t ++ (sweep c fuel t (shl64 t 1)).1, (sweep c fuel t (shl64 t 1)).2)
        else ([], true) := by
  rw [sweep]

theorem strideSweep_succ (B inner fuel t : Nat) :
    strideSweep B inner (fuel + 1) t
      = if t ≤ B then
          if (strideInnerArgs t inner 1).2 = true then
            ((strideInnerArgs t inner 1).1 ++ (strideSweep B inner fuel (shl64 t 1)).1,
             (strideSweep B inner fuel (shl64 t 1)).2)
          else ((strideInnerArgs t inner 1).1, false)
        else ([], true) := by
  rw [strideSweep]

theorem sweep_fuel_succ (c : Nat → Bool) (fuel : Nat) :
    ∀ p t, (sweep c fuel p t).2 = true → sweep c (fuel + 1) p t = sweep c fuel p t := by
  induction fuel with
  | zero => intro p t h; simp [sweep] at h
  | succ fuel ih =>
    intro p t h
    rw [sweep_succ] at h
    rw [sweep_succ c (fuel + 1) p t, sweep_succ c fuel p t]
    by_cases hc : c t = true
    · simp only [hc, if_true] at h ⊢
      rw [ih t (shl64 t 1) h]
    · simp only [hc, if_false, Bool.false_eq_true]

theorem sweep_fuel_add (c : Nat → Bool) (fuel k p t : Nat) (h : (sweep c fuel p t).2 = true) :
    sweep c (fuel + k) p t = sweep c fuel p t := by
  induction k with
  | zero => rfl
  | succ k ih =>
    rw [← Nat.add_assoc, sweep_fuel_succ c (fuel + k) p t (by rw [ih]; exact h), ih]

theorem sweep_fuel_indep (M : Nat) (hM : M < 2 ^ 63) (f1 f2 p : Nat) (h1 : 64 ≤ f1)
    (h2 : 64 ≤ f2) : sweep (streamCond M) f1 p 256 = sweep (streamCond M) f2 p 256 := by
  have d := sweep_done_of_le M hM 64 (le_refl _) p
  obtain ⟨k1, rfl⟩ : ∃ k, f1 = 64 + k := ⟨f1 - 64, by omega⟩
  obtain ⟨k2, rfl⟩ : ∃ k, f2 = 64 + k := ⟨f2 - 64, by omega⟩
  rw [sweep_fuel_add _ 64 k1 p 256 d, sweep_fuel_add _ 64 k2 p 256 d]

theorem strideSweep_inner (B k : Nat) (fuel : Nat) :
    ∀ t, strideSweep B (k + 5) fuel t = strideSweep B 5 fuel t := by
  induction fuel with
  | zero => intro t; rfl
  | succ fuel ih =>
    intro t
    rw [strideSweep_succ, strideSweep_succ, ih, strideInner_explicit t k,
      strideInner_explicit t 0]

theorem strideSweep_fuel_succ (B inner : Nat) (fuel : Nat) :
    ∀ t, (strideSweep B inner fuel t).2 = true →
      strideSweep B inner (fuel + 1) t = strideSweep B inner fuel t := by
  induction fuel with
  | zero => intro t h; simp [strideSweep] at h
  | succ fuel ih =>
    intro t h
    rw [strideSweep_succ] at h
    rw [strideSweep_succ B inner (fuel + 1) t, strideSweep_succ B inner fuel t]
    by_cases hc : t ≤ B
    · simp only [hc, if_true] at h ⊢
      by_cases hi : (strideInnerArgs t inner 1).2 = true
      · simp only [hi, if_true] at h ⊢
        rw [ih (shl64 t 1) h]
      · simp [hi] at h
    · simp only [hc, if_false]

theorem strideSweep_fuel_add (B inner fuel k t : Nat)
    (h : (strideSweep B inner fuel t).2 = true) :
    strideSweep B inner (fuel + k) t = strideSweep B inner fuel t := by
  induction k with
  | zero => rfl
  | succ k ih =>
    rw [← Nat.add_assoc, strideSweep_fuel_succ B inner (fuel + k) t (by rw [ih]; exact h), ih]

theorem strideSweep_fuel_indep (B : Nat) (hB : B < 2 ^ 63) (i1 i2 f1 f2 : Nat)
    (hi1 : 5 ≤ i1) (hi2 : 5 ≤ i2) (h1 : 64 ≤ f1) (h2 : 64 ≤ f2) :
    strideSweep B i1 f1 64 = strideSweep B i2 f2 64 := by
  obtain ⟨j1, rfl⟩ : ∃ k, i1 = k + 5 := ⟨i1 - 5, by omega⟩
  obtain ⟨j2, rfl⟩ : ∃ k, i2 = k + 5 := ⟨i2 - 5, by omega⟩
  rw [strideSweep_inner, strideSweep_inner B j2]
  have d : (strideSweep B 5 64 64).2 = true := by
    apply strideSweep_done B 5 hB (le_refl _) 63
    have : (2:Nat) ^ 63 ≤ 2 ^ 63 := le_refl _
    omega
  obtain ⟨k1, rfl⟩ : ∃ k, f1 = 64 + k := ⟨f1 - 64, by omega⟩
  obtain ⟨k2, rfl⟩ : ∃ k, f2 = 64 + k := ⟨f2 - 64, by omega⟩
  rw [strideSweep_fuel_add _ _ 64 k1 64 d, strideSweep_fuel_add _ _ 64 k2 64 d]

/-- C13: two runs of `main` with the same `BUFSIZE` (and the same fuel) pass the same
sizes to `test_stream_rw` and the same `(num_accesses, stride)` pairs to `test_stride_rw`,
whatever the counter readings, the `random()` results, the kernels and the address of the
buffer in either run, and either both return or neither does. When `BUFSIZE < 2 ^ 63` the
same holds for any two amounts of fuel of at least 64, and both runs return. -/
theorem sweeps_deterministic (env1 env2 : Env) (BUFSIZE buf1 buf2 : Nat) :
    (∀ fuel,
      streamCalls (main env1 BUFSIZE buf1 fuel).state.trace
          = streamCalls (main env2 BUFSIZE buf2 fuel).state.trace
        ∧ strideCalls (main env1 BUFSIZE buf1 fuel).state.trace
          = strideCalls (main env2 BUFSIZE buf2 fuel).state.trace
        ∧ (main env1 BUFSIZE buf1 fuel).isFinished = (main env2 BUFSIZE buf2 fuel).isFinished)
    ∧ (BUFSIZE < 2 ^ 63 → ∀ fuel1 fuel2, 64 ≤ fuel1 → 64 ≤ fuel2 →
      streamCalls (main env1 BUFSIZE buf1 fuel1).state.trace
          = streamCalls (main env2 BUFSIZE buf2 fuel2).state.trace
        ∧ strideCalls (main env1 BUFSIZE buf1 fuel1).state.trace
          = strideCalls (main env2 BUFSIZE buf2 fuel2).state.trace
        ∧ (main env1 BUFSIZE buf1 fuel1).isFinished = true
        ∧ (main env2 BUFSIZE buf2 fuel2).isFinished = true) := by
  constructor
  · intro fuel
    refine ⟨?_, ?_, ?_⟩
    · rw [main_streamCalls, main_streamCalls]
    · rw [main_strideCalls, main_strideCalls]
    · rw [(main_calls env1 BUFSIZE buf1 fuel).2, (main_calls env2 BUFSIZE buf2 fuel).2]
      unfold mainCalls
      simp only []
      split_ifs <;> rfl
  · intro hB f1 f2 h1 h2
    have hr : ∀ f, 64 ≤ f → (sweep (randomCond BUFSIZE) f 0 256).2 = true := by
      intro f hf
      rw [random_sweep_eq]
      exact sweep_done_of_le _ (by omega) f hf 0
    refine ⟨?_, ?_, main_finished env1 BUFSIZE buf1 f1 hB h1,
      main_finished env2 BUFSIZE buf2 f2 hB h2⟩
    · rw [main_streamCalls, main_streamCalls, sweep_fuel_indep BUFSIZE hB f1 f2 0 h1 h2]
    · rw [main_strideCalls, main_strideCalls,
        if_pos ⟨sweep_done_of_le BUFSIZE hB f1 h1 0, hr f1 h1⟩,
        if_pos ⟨sweep_done_of_le BUFSIZE hB f2 h2 0, hr f2 h2⟩,
        strideSweep_fuel_indep BUFSIZE hB f1 f2 f1 f2 (by omega) (by omega) h1 h2]

/-- Witness of C13: the environments `env0` and `env1` on the generic profile. -/
theorem sweeps_deterministic_witness :
    BUFSIZE_HOST < 2 ^ 63 ∧ 64 ≤ 64 ∧ 64 ≤ 100 ∧
      streamCalls (main env0 BUFSIZE_HOST 0 64).state.trace
          = streamCalls (main env1 BUFSIZE_HOST 4096 100).state.trace
        ∧ strideCalls (main env0 BUFSIZE_HOST 0 64).state.trace
          = strideCalls (main env1 BUFSIZE_HOST 4096 100).state.trace
        ∧ (main env0 BUFSIZE_HOST 0 64).isFinished = true
        ∧ (main env1 BUFSIZE_HOST 4096 100).isFinished = true :=
  ⟨by decide, by decide, by decide,
    (sweeps_deterministic env0 env1 BUFSIZE_HOST 0 4096).2 (by decide) 64 100
      (by decide) (by decide)⟩

/-! ## Termination -/

/-- C15: for every `BUFSIZE < 2 ^ 63` each loop of `main` exits within a bounded number of
evaluations of its condition, whatever the state it starts in: 64 for the stream, the
random and the outer stride loop, 5 for the inner stride loop (for every `transfer`); so
`main` returns. In every iteration of the three outer loops `transfer ≤ BUFSIZE`, hence
`2 * transfer < 2 ^ 64` and `transfer <<= 1` yields `2 * transfer` without wrap-around. -/
theorem sweeps_terminate (env : Env) (BUFSIZE buf : Nat) (hB : BUFSIZE < 2 ^ 63) :
    (∀ fuel s, 64 ≤ fuel → (streamLoop env BUFSIZE buf fuel 0 256 s).isFinished = true)
    ∧ (∀ fuel s, 64 ≤ fuel → (randomLoop env BUFSIZE buf fuel 0 256 s).isFinished = true)
    ∧ (∀ fuel transfer s, 5 ≤ fuel →
        (strideInner env buf transfer fuel 1 s).isFinished = true)
    ∧ (∀ innerFuel fuel s, 5 ≤ innerFuel → 64 ≤ fuel →
        (strideLoop env BUFSIZE buf innerFuel fuel 64 s).isFinished = true)
    ∧ (∀ fuel, 64 ≤ fuel → (main env BUFSIZE buf fuel).isFinished = true)
    ∧ (∀ fuel prev_transfer transfer s, transfer ≤ BUFSIZE →
        2 * transfer < 2 ^ 64
          ∧ streamLoop env BUFSIZE buf (fuel + 1) prev_transfer transfer s
            = streamLoop env BUFSIZE buf fuel transfer (2 * transfer)
                (streamBody env buf prev_transfer transfer s))
    ∧ (∀ fuel prev_transfer transfer s,
        shr64 transfer 8 ≤ MAX_NUM_CHUNKS ∧ transfer ≤ BUFSIZE →
        2 * transfer < 2 ^ 64
          ∧ randomLoop env BUFSIZE buf (fuel + 1) prev_transfer transfer s
            = randomLoop env BUFSIZE buf fuel transfer (2 * transfer)
                (randomBody env BUFSIZE buf prev_transfer transfer s))
    ∧ (∀ innerFuel fuel transfer s, transfer ≤ BUFSIZE →
        2 * transfer < 2 ^ 64
          ∧ strideLoop env BUFSIZE buf innerFuel (fuel + 1) transfer s
            = (strideInner env buf transfer innerFuel 1 s).andThen
                (fun s1 => strideLoop env BUFSIZE buf innerFuel fuel (2 * transfer) s1)) := by
  have hs : ∀ t, t ≤ BUFSIZE → shl64 t 1 = 2 * t := by
    intro t ht; unfold shl64; omega
  refine ⟨?_, ?_, ?_, ?_, ?_, ?_, ?_, ?_⟩
  · intro fuel s hf
    rw [(streamLoop_calls env BUFSIZE buf fuel 0 256 s).2]
    exact sweep_done_of_le BUFSIZE hB fuel hf 0
  · intro fuel s hf
    rw [(randomLoop_calls env BUFSIZE buf fuel 0 256 s).2, random_sweep_eq]
    exact sweep_done_of_le _ (by omega) fuel hf 0
  · intro fuel t s hf
    obtain ⟨k, rfl⟩ : ∃ k, fuel = k + 5 := ⟨fuel - 5, by omega⟩
    rw [(strideInner_calls env buf t (k + 5) 1 s).2]
    exact strideInner_done t k
  · intro inner fuel s hi hf
    obtain ⟨k, rfl⟩ : ∃ k, fuel = k + 1 := ⟨fuel - 1, by omega⟩
    rw [(strideLoop_calls env BUFSIZE buf inner (k + 1) 64 s).2]
    apply strideSweep_done BUFSIZE inner hB hi
    have : (2:Nat) ^ 63 ≤ 2 ^ k := Nat.pow_le_pow_right (by norm_num) (by omega)
    omega
  · intro fuel hf
    exact main_finished env BUFSIZE buf fuel hB hf
  · intro fuel p t s ht
    refine ⟨by omega, ?_⟩
    simp only [streamLoop, if_pos ht, hs t ht]
  · intro fuel p t s ht
    refine ⟨by omega, ?_⟩
    simp only [randomLoop, if_pos ht, hs t ht.2]
  · intro inner fuel t s ht
    refine ⟨by omega, ?_⟩
    simp only [strideLoop, if_pos ht, hs t ht]

/-- Witness of C15: the generic profile (`BUFSIZE = 128 MiB`). -/
theorem sweeps_terminate_witness :
    BUFSIZE_HOST < 2 ^ 63 ∧ 64 ≤ 64 ∧ (main env1 BUFSIZE_HOST 0 64).isFinished = true :=
  ⟨by decide, by decide,
    (sweeps_terminate env1 BUFSIZE_HOST 0 (by decide)).2.2.2.2.1 64 (by decide)⟩

/-! ## The first and the last size of the stream sweep -/

theorem doubling_pow {p t : Nat} (h : DoublingStep p t) : ∃ a, t = 2 ^ a := by
  rcases h with ⟨_, rfl⟩ | ⟨j, _, rfl, _⟩
  · exact ⟨8, by norm_num⟩
  · exact ⟨9 + j, by rw [pow_add]; norm_num⟩

theorem stepSizes_last {p t : Nat} (h : DoublingStep p t) :
    (stepSizes p t).getLast? = some t := by
  rw [(stepSizes_eq_spec h).1]
  exact (stepSizes_eq_spec h).2

theorem sweep_last (k : Nat) (hk : k < 63) (fuel : Nat) :
    ∀ p t, DoublingStep p t → t ≤ 2 ^ k → 2 ^ k < t * 2 ^ fuel →
      (sweep (streamCond (2 ^ k)) (fuel + 1) p t).1.getLast? = some (2 ^ k) := by
  have hB : (2:Nat) ^ k < 2 ^ 63 := Nat.pow_lt_pow_right (by norm_num) hk
  induction fuel with
  | zero => intro p t _ h1 h2; omega
  | succ fuel ih =>
    intro p t hd h1 h2
    have hs : shl64 t 1 = 2 * t := by unfold shl64; omega
    have hc : streamCond (2 ^ k) t = true := by simp [streamCond, h1]
    rw [sweep_succ, if_pos hc]
    simp only []
    by_cases h3 : 2 * t ≤ 2 ^ k
    · have := ih t (shl64 t 1) (doubling_next hd (by omega)) (by rw [hs]; exact h3)
        (by rw [hs]; rw [pow_succ] at h2; nlinarith)
      rw [List.getLast?_append, this]
      rfl
    · have hc2 : streamCond (2 ^ k) (shl64 t 1) = false := by
        simp [streamCond, hs]; omega
      rw [sweep_succ, if_neg (by simp [hc2])]
      simp only [List.append_nil]
      rw [stepSizes_last hd]
      obtain ⟨a, rfl⟩ := doubling_pow hd
      have e1 : a ≤ k := (Nat.pow_le_pow_iff_right (by norm_num)).1 h1
      have e2 : k < a + 1 := by
        have : (2:Nat) ^ k < 2 ^ (a + 1) := by rw [pow_succ]; omega
        exact (Nat.pow_lt_pow_iff_right (by norm_num)).1 this
      have : a = k := by omega
      rw [this]

theorem sweep_head (B fuel : Nat) (h : 256 ≤ B) :
    (sweep (streamCond B) (fuel + 1) 0 256).1.head? = some 256 := by
  have hc : streamCond B 256 = true := by simp [streamCond, h]
  rw [sweep_succ, if_pos hc, stepSizes_small.1]
  rfl

/-- C17: for every `BUFSIZE = 2 ^ k ≥ 256` the program can be built with, among them both
configured capacities (`512 KiB = 2 ^ 19`, `128 MiB = 2 ^ 27`), `main` run with at least
64 units of fuel returns, the first size its stream sweep passes to `test_stream_rw` is 256
and the last one is `BUFSIZE`. `BUFSIZE` is also the size of the array
`volatile char buffer[BUFSIZE]`; the size of an object is below `2 ^ 63`, which is the
hypothesis `k < 63`. -/
theorem stream_first_last (env : Env) (buf k fuel : Nat) (hk1 : 8 ≤ k) (hk2 : k < 63)
    (hf : 64 ≤ fuel) :
    (main env (2 ^ k) buf fuel).isFinished = true
      ∧ (streamCalls (main env (2 ^ k) buf fuel).state.trace).head? = some 256
      ∧ (streamCalls (main env (2 ^ k) buf fuel).state.trace).getLast? = some (2 ^ k)
      ∧ BUFSIZE_CHESHIRE = 2 ^ 19 ∧ BUFSIZE_HOST = 2 ^ 27 := by
  have hB : (2:Nat) ^ k < 2 ^ 63 := Nat.pow_lt_pow_right (by norm_num) hk2
  have hlo : (256:Nat) ≤ 2 ^ k := by
    have : (2:Nat) ^ 8 ≤ 2 ^ k := Nat.pow_le_pow_right (by norm_num) hk1
    omega
  obtain ⟨f, rfl⟩ : ∃ f, fuel = f + 1 := ⟨fuel - 1, by omega⟩
  refine ⟨main_finished env _ buf _ hB hf, ?_, ?_, by decide, by decide⟩
  · rw [main_streamCalls]
    exact sweep_head _ f hlo
  · rw [main_streamCalls]
    apply sweep_last k hk2 f 0 256 doubling_init hlo
    have : (2:Nat) ^ 63 ≤ 2 ^ f := Nat.pow_le_pow_right (by norm_num) (by omega)
    omega

/-- Witness of C17: `BUFSIZE = 2 ^ 19`, the `__CHESHIRE__` profile. -/
theorem stream_first_last_witness :
    8 ≤ 19 ∧ 19 < 63 ∧ 64 ≤ 64 ∧
      (main env0 (2 ^ 19) 0 64).isFinished = true
      ∧ (streamCalls (main env0 (2 ^ 19) 0 64).state.trace).head? = some 256
      ∧ (streamCalls (main env0 (2 ^ 19) 0 64).state.trace).getLast? = some (2 ^ 19)
      ∧ BUFSIZE_CHESHIRE = 2 ^ 19 ∧ BUFSIZE_HOST = 2 ^ 27 :=
  ⟨by decide, by decide, by decide,
    stream_first_last env0 0 19 64 (by decide) (by decide) (by decide)⟩

/-! ## The sizes of a sweep increase -/

theorem stepSizes_increasing {p t : Nat} (h : DoublingStep p t) :
    List.Pairwise (fun a b => a < b) (stepSizes p t) := by
  obtain ⟨s1, s2, s3, s4⟩ := stepSizes_small
  rcases doubling_cases h with ⟨rfl, rfl⟩ | ⟨rfl, rfl⟩ | ⟨rfl, rfl⟩ | ⟨rfl, rfl⟩ | ⟨y, hy, rfl, rfl, hlt⟩
  · rw [s1]; simp
  · rw [s2]; simp
  · rw [s3]; simp
  · rw [s4]; simp
  · rw [stepSizes_big y hy hlt]
    simp only [List.pairwise_cons, List.mem_cons, List.mem_singleton, List.not_mem_nil,
      List.Pairwise.nil, forall_eq_or_imp, forall_eq, or_false, and_true, IsEmpty.forall_iff,
      implies_true]
    omega

theorem sweep_increasing (M : Nat) (hM : M < 2 ^ 63) (fuel : Nat) :
    ∀ p t, DoublingStep p t →
      List.Pairwise (fun a b => a < b) (sweep (streamCond M) fuel p t).1
        ∧ ∀ x ∈ (sweep (streamCond M) fuel p t).1, p < x := by
  induction fuel with
  | zero => intro p t _; simp [sweep]
  | succ fuel ih =>
    intro p t hd
    rw [sweep_succ]
    by_cases hc : streamCond M t = true
    · rw [if_pos hc]
      simp only []
      have ht : t ≤ M := by simpa [streamCond] using hc
      obtain ⟨i1, i2⟩ := ih t (shl64 t 1) (doubling_next hd (by omega))
      have hb := stepSizes_bounds hd
      refine ⟨List.pairwise_append.2 ⟨stepSizes_increasing hd, i1, ?_⟩, ?_⟩
      · intro a ha b hb'
        have := hb a ha
        have := i2 b hb'
        omega
      · intro x hx
        rcases List.mem_append.1 hx with hx | hx
        · exact (hb x hx).2.1
        · have := i2 x hx
          have := (doubling_mod hd).2
          rcases hd with ⟨rfl, rfl⟩ | ⟨j, rfl, rfl, _⟩ <;> omega
    · rw [if_neg hc]
      simp

/-- C18: the sizes that the stream sweep of `main` passes to `test_stream_rw` are strictly
increasing over the whole sweep, hence pairwise different, for every `BUFSIZE < 2 ^ 63` (in
particular both configured capacities), every environment and whatever the fuel; the sizes
that the random sweep passes to `test_random_rw` are strictly increasing and pairwise
different for every `BUFSIZE`. -/
theorem sweep_sizes_increasing (env : Env) (BUFSIZE buf fuel : Nat) :
    (BUFSIZE < 2 ^ 63 →
      List.Pairwise (fun a b => a < b) (streamCalls (main env BUFSIZE buf fuel).state.trace)
        ∧ (streamCalls (main env BUFSIZE buf fuel).state.trace).Nodup)
    ∧ List.Pairwise (fun a b => a < b) (randomCalls (main env BUFSIZE buf fuel).state.trace)
    ∧ (randomCalls (main env BUFSIZE buf fuel).state.trace).Nodup
    ∧ List.Pairwise (fun a b => a < b)
        (streamCalls (main env BUFSIZE_CHESHIRE buf fuel).state.trace)
    ∧ List.Pairwise (fun a b => a < b)
        (streamCalls (main env BUFSIZE_HOST buf fuel).state.trace) := by
  have nd : ∀ l : List Nat, List.Pairwise (fun a b => a < b) l → l.Nodup := by
    intro l h
    exact h.imp (fun hab => Nat.ne_of_lt hab)
  have hs : ∀ B, B < 2 ^ 63 →
      List.Pairwise (fun a b => a < b) (streamCalls (main env B buf fuel).state.trace) := by
    intro B hB
    rw [main_streamCalls]
    exact (sweep_increasing B hB fuel 0 256 doubling_init).1
  have hr : List.Pairwise (fun a b => a < b)
      (randomCalls (main env BUFSIZE buf fuel).state.trace) := by
    rw [main_randomCalls]
    split
    · rw [random_sweep_eq]
      exact (sweep_increasing _ (by simp only [MAX_NUM_CHUNKS]; omega) fuel 0 256
        doubling_init).1
    · exact List.Pairwise.nil
  exact ⟨fun hB => ⟨hs _ hB, nd _ (hs _ hB)⟩, hr, nd _ hr, hs _ (by decide), hs _ (by decide)⟩

/-- Witness of C18: the generic profile (`BUFSIZE = 128 MiB`) with 64 units of fuel. -/
theorem sweep_sizes_increasing_witness :
    BUFSIZE_HOST < 2 ^ 63 ∧
      List.Pairwise (fun a b => a < b) (streamCalls (main env1 BUFSIZE_HOST 0 64).state.trace)
        ∧ (streamCalls (main env1 BUFSIZE_HOST 0 64).state.trace).Nodup :=
  ⟨by decide, (sweep_sizes_increasing env1 BUFSIZE_HOST 0 64).1 (by decide)⟩

/-! ## The distribution of the chunk positions -/

theorem count_congr_below (p q : Nat → Prop) [DecidablePred p] [DecidablePred q] (R : Nat)
    (h : ∀ r, r < R → (p r ↔ q r)) : Nat.count p R = Nat.count q R := by
  induction R with
  | zero => simp
  | succ R ih =>
    rw [Nat.count_succ, Nat.count_succ, ih (fun r hr => h r (Nat.lt_succ_of_lt hr))]
    have := h R (Nat.lt_succ_self R)
    by_cases hp : p R
    · simp [hp, this.1 hp]
    · have hq : ¬ q R := fun c => hp (this.2 c)
      simp [hp, hq]

theorem positionCount_eq (R n p : Nat) (hR : R ≤ 2 ^ 64) (hn : 0 < n) (hp : p < n) :
    positionCount R n p = R / n + if p < R % n then 1 else 0 := by
  unfold positionCount
  rw [count_congr_below _ (fun raw => raw ≡ p [MOD n]) R, Nat.count_modEq_card R hn p,
    Nat.mod_eq_of_lt hp]
  intro r hr
  have e : r % 2 ^ 64 = r := Nat.mod_eq_of_lt (by omega)
  rw [e]
  unfold Nat.ModEq
  rw [Nat.mod_eq_of_lt hp]

/-- C12 (amended): for every chunk count `num_chunks > 0`, every output range of
`random()` of size `range ≤ 2 ^ 64` (so `2 ^ 31` and `2 ^ 64`) and every position
`pos < num_chunks`, the number of raw results that `random() % num_chunks` maps to `pos` is
`range / num_chunks`, plus one when `pos < range % num_chunks`. So the numbers for any two
positions differ by at most one, and they are all equal when `num_chunks` divides `range`,
as it does for the chunk counts `2 ^ a` with `a ≤ 31`. -/
theorem positions_almost_uniform (range num_chunks : Nat) (hR : range ≤ 2 ^ 64)
    (hn : 0 < num_chunks) :
    (∀ pos, pos < num_chunks →
      positionCount range num_chunks pos
        = range / num_chunks + if pos < range % num_chunks then 1 else 0)
    ∧ (∀ pos1 pos2, pos1 < num_chunks → pos2 < num_chunks →
        positionCount range num_chunks pos1 ≤ positionCount range num_chunks pos2 + 1)
    ∧ (range % num_chunks = 0 → ∀ pos, pos < num_chunks →
        positionCount range num_chunks pos = range / num_chunks)
    ∧ (∀ a, a ≤ 31 → 2 ^ 31 % 2 ^ a = 0 ∧ 2 ^ 64 % 2 ^ a = 0) := by
  refine ⟨fun p hp => positionCount_eq range num_chunks p hR hn hp, ?_, ?_, ?_⟩
  · intro p1 p2 h1 h2
    rw [positionCount_eq range num_chunks p1 hR hn h1,
      positionCount_eq range num_chunks p2 hR hn h2]
    split_ifs <;> omega
  · intro h0 p hp
    rw [positionCount_eq range num_chunks p hR hn hp, h0]
    simp
  · intro a ha
    constructor
    · exact Nat.mod_eq_zero_of_dvd (Nat.pow_dvd_pow 2 ha)
    · exact Nat.mod_eq_zero_of_dvd (Nat.pow_dvd_pow 2 (by omega))

/-- Witness of C12 (amended): three chunks and the range `2 ^ 31`. -/
theorem positions_almost_uniform_witness :
    2 ^ 31 ≤ 2 ^ 64 ∧ 0 < 3 ∧
      ∀ pos, pos < 3 →
        positionCount (2 ^ 31) 3 pos = 2 ^ 31 / 3 + if pos < 2 ^ 31 % 3 then 1 else 0 :=
  ⟨by decide, by decide, (positions_almost_uniform (2 ^ 31) 3 (by decide) (by decide)).1⟩

/-- Counterexample to C12 as stated: the random sweep of `main` passes the size 768, that
is 3 chunks, on both profiles; of the `2 ^ 31` raw results position 0 is the image of
715827883 and position 2 of 715827882, and of the `2 ^ 64` raw results position 0 is the
image of one more than position 1. -/
theorem positions_uniform_counterexample :
    768 ∈ randomCalls (main env0 BUFSIZE_CHESHIRE 0 64).state.trace
      ∧ 768 ∈ randomCalls (main env0 BUFSIZE_HOST 0 64).state.trace
      ∧ 768 / 256 = 3
      ∧ positionCount (2 ^ 31) 3 0 = 715827883 ∧ positionCount (2 ^ 31) 3 2 = 715827882
      ∧ positionCount (2 ^ 64) 3 0 = 6148914691236517206
      ∧ positionCount (2 ^ 64) 3 1 = 6148914691236517205 := by
  refine ⟨?_, ?_, by decide, ?_, ?_, ?_, ?_⟩
  · rw [main_randomCalls]; decide
  · rw [main_randomCalls]; decide
  · rw [positionCount_eq _ _ _ (by decide) (by decide) (by decide)]; decide
  · rw [positionCount_eq _ _ _ (by decide) (by decide) (by decide)]; decide
  · rw [positionCount_eq _ _ _ (by decide) (by decide) (by decide)]; decide
  · rw [positionCount_eq _ _ _ (by decide) (by decide) (by decide)]; decide

end Bandwidth
